import Mathlib

/-!
# Verification of the leabra rate-coded neural-network engine

A shallow embedding, in Lean 4, of the cycle-level numeric core of the
`leabra` Go package (layers of rate-coded point neurons, FFFB pooled
inhibition, calcium-based synaptic depression, phase statistics and the
trial-level orchestration), together with theorems settling a list of
claims about that code.

Conventions of the embedding:
* Go `float32`/`float64` arithmetic is embedded as exact arithmetic, over `ℚ`
  where the code only uses field operations and comparisons, and over `ℝ`
  where the code calls `math32.Sqrt`, `math32.Exp` or `math32.Pow`.
* Go slices are `List`s; in-place mutation becomes a function from the old
  value to the new one.
* Neuron bit flags (`NeurOff`, `NeurHasExt`, `NeurHasTarg`, `NeurHasCmpr`)
  become `Bool` fields.
* Sources of randomness (`rand.Perm`, `Noise.Gen`) become explicit
  parameters of the functions that draw from them.
-/

namespace Leabra

/-! ## Synapse and calcium-based depression (synapse.go) -/

/-- Per-connection synaptic state, from `synapse.go` (`leabra.Synapse`);
`float32` fields are embedded as `ℚ`. -/
structure Synapse where
  Wt : ℚ
  LWt : ℚ
  DWt : ℚ
  PDW : ℚ
  Norm : ℚ
  Moment : ℚ
  Scale : ℚ
  SRAvgDp : ℚ
  Cai : ℚ
  Rec : ℚ
  Effwt : ℚ
  Ca_inc : ℚ
  Ca_dec : ℚ
  sd_ca_thr : ℚ
  sd_ca_gain : ℚ
  sd_ca_thr_rescale : ℚ
deriving DecidableEq

/-- `Synapse.SynDep` (synapse.go lines 68-75): quadratic depression factor;
`cao_thr` is 1 until the calcium trace `Cai` exceeds the threshold
`sd_ca_thr`, after which the headroom is rescaled by `sd_ca_thr_rescale`. -/
def Synapse.SynDep (sy : Synapse) : ℚ :=
  let cao_thr : ℚ := if sy.Cai > sy.sd_ca_thr then
      1 - sy.sd_ca_thr_rescale * (sy.Cai - sy.sd_ca_thr)
    else 1
  cao_thr * cao_thr

/-- `Synapse.CaUpdt` (synapse.go lines 78-85): leaky-integrator update of the
calcium trace `Cai`, driven by `ru_act * su_act * Effwt`, rising toward 1 at
rate `Ca_inc` and decaying toward 0 at rate `Ca_dec`. -/
def Synapse.CaUpdt (sy : Synapse) (ru_act su_act : ℚ) : Synapse :=
  let drive := ru_act * su_act * sy.Effwt
  { sy with Cai := sy.Cai + sy.Ca_inc * (1 - sy.Cai) * drive - sy.Ca_dec * sy.Cai }

/-! ## Network-level weight-balance counter (Network, part_000) -/

/-- The counter-bearing state of `leabra.Network` (part_000 lines 15-19):
`WtBalInterval` (default 10) and the running counter `WtBalCtr`.  The layer
collection is irrelevant to the counter claims and is omitted here. -/
structure NetworkCtr where
  WtBalInterval : ℕ
  WtBalCtr : ℕ
deriving DecidableEq

/-- `Network.AlphaCycInit` (part_000 lines 114-123) dispatches per-layer
initialization only; it reads and writes nothing on the network itself, so
its effect on the counter state is the identity. -/
def NetworkCtr.AlphaCycInit (nt : NetworkCtr) : NetworkCtr := nt

/-- `Network.InitWts` (part_000 lines 54-71) sets `WtBalCtr = 0` before
dispatching per-layer weight initialization. -/
def NetworkCtr.InitWts (nt : NetworkCtr) : NetworkCtr :=
  { nt with WtBalCtr := 0 }

/-- `Network.WtFmDWt` (part_000 lines 204-213): after dispatching the
per-layer weight updates it increments `WtBalCtr`; when the counter reaches
`WtBalInterval` it is reset to 0 and `WtBalFmWt` runs (the returned `Bool`
records whether that network-wide weight-balance pass was triggered). -/
def NetworkCtr.WtFmDWt (nt : NetworkCtr) : NetworkCtr × Bool :=
  let c := nt.WtBalCtr + 1
  if nt.WtBalInterval ≤ c then ({ nt with WtBalCtr := 0 }, true)
  else ({ nt with WtBalCtr := c }, false)

/-! ## Neuron state

The `Neuron` struct itself (`neuron.go`) is not among the examined source
files; only its uses are.  Its fields and flag accessors are reconstructed
from those uses in `layer.go` and the activation code. -/

/-- Modelled from the spec: per-unit state of `leabra.Neuron` (neuron.go is
not among the examined sources; fields are those read/written by `layer.go`
and the activation/inhibition code): conductances (raw, incremental,
integrated), membrane potential, net current, activations and deltas,
external/target clamp values, running averages, noise sample, sub-pool
index, and the `NeurOff`/`NeurHasExt`/`NeurHasTarg`/`NeurHasCmpr` bit flags
as `Bool` fields. -/
structure Neuron (α : Type) where
  Act : α
  ActSent : α
  Ge : α
  GeRaw : α
  GeInc : α
  Gi : α
  GiRaw : α
  GiInc : α
  GiSyn : α
  GiSelf : α
  Vm : α
  Inet : α
  Ext : α
  Targ : α
  ActDel : α
  ActM : α
  ActP : α
  ActQ0 : α
  ActQ1 : α
  ActQ2 : α
  ActDif : α
  ActAvg : α
  AvgSS : α
  AvgS : α
  AvgM : α
  Noise : α
  SubPool : ℕ
  Off : Bool
  HasExt : Bool
  HasTarg : Bool
  HasCmpr : Bool
deriving DecidableEq

/-- `Neuron.IsOff`: the `NeurOff` lesion flag. -/
def Neuron.IsOff {α : Type} (n : Neuron α) : Bool := n.Off

/-- A neuron with every numeric field 0 and every flag clear, used as the
`getD` fallback in statements about concrete layers. -/
def Neuron.zeroed {α : Type} [Zero α] : Neuron α :=
  ⟨0, 0, 0, 0, 0, 0, 0, 0, 0, 0, 0, 0, 0, 0, 0, 0, 0, 0, 0, 0, 0, 0, 0, 0,
   0, 0, 0, false, false, false, false⟩

/-! ## Pooled running statistics

`minmax.AvgMax32` comes from the external `etable` dependency; it is
modelled here exactly as that collaborator behaves: `Init` seeds `Max` with
`-math.MaxFloat32` (the exact rational `2^128 - 2^104`, negated) and
`MaxIdx` with -1; `UpdateVal` accumulates `Sum`/`N` and tracks the running
maximum; `CalcAvg` divides `Sum` by `N` when `N > 0`. -/

/-- The largest finite `float32`, exactly. -/
def maxFloat32 (α : Type) [LinearOrderedField α] : α := 2 ^ 128 - 2 ^ 104

/-- Running average/max statistic record (external `minmax.AvgMax32`). -/
structure AvgMax (α : Type) where
  Avg : α
  Max : α
  Sum : α
  MaxIdx : ℤ
  N : ℕ
deriving DecidableEq

variable {α : Type} [LinearOrderedField α]

/-- `AvgMax32.Init`: zero the accumulators, seed the maximum. -/
def AvgMax.init : AvgMax α :=
  { Avg := 0, Max := -maxFloat32 α, Sum := 0, MaxIdx := -1, N := 0 }

/-- `AvgMax32.UpdateVal(val, idx)`. -/
def AvgMax.updateVal (am : AvgMax α) (val : α) (idx : ℤ) : AvgMax α :=
  { am with
    Sum := am.Sum + val
    N := am.N + 1
    Max := if val > am.Max then val else am.Max
    MaxIdx := if val > am.Max then idx else am.MaxIdx }

/-- `AvgMax32.CalcAvg`. -/
def AvgMax.calcAvg (am : AvgMax α) : AvgMax α :=
  if 0 < am.N then { am with Avg := am.Sum / (am.N : α) } else am

/-! ## Inhibition state and parameters (inhib.go) -/

/-- Modelled from the spec: `leabra.FFFBInhib` (its defining file is not
among the examined sources; `inhib.go` and `layer.go` read/write exactly
these fields): feedforward component `FFi`, time-integrated feedback
component `FBi`, combined gain `Gi`, and the pre-modulation snapshot
`GiOrig`; `Init` resets all of them to zero ("if the scope is disabled, its
inhibitory state resets to zero"). -/
structure FFFBInhib (α : Type) where
  FFi : α
  FBi : α
  Gi : α
  GiOrig : α
deriving DecidableEq

/-- `FFFBInhib.Init`: all-zero inhibition state. -/
def FFFBInhib.init : FFFBInhib α := ⟨0, 0, 0, 0⟩

/-- `leabra.FFFBParams` (inhib.go lines 38-52); the oscillation fields are
carried but the sinusoidal schedule itself (`InhibOscil`, which calls
`math32.Sin`) is outside the claims settled here. -/
structure FFFBParams (α : Type) where
  On : Bool
  Gi : α
  GiBase : α
  GiOscPer : ℕ
  GiOscMax : α
  GiOscMin : α
  FF : α
  FB : α
  FBTau : α
  MaxVsAvg : α
  FF0 : α
  FBDt : α
deriving DecidableEq

/-- `FFFBParams.FFInhib` (inhib.go lines 82-89). -/
def FFFBParams.FFInhib (fb : FFFBParams α) (avgGe maxGe : α) : α :=
  let ffNetin := avgGe + fb.MaxVsAvg * (maxGe - avgGe)
  if ffNetin > fb.FF0 then fb.FF * (ffNetin - fb.FF0) else 0

/-- `FFFBParams.FBInhib` (inhib.go lines 92-95). -/
def FFFBParams.FBInhib (fb : FFFBParams α) (avgAct : α) : α :=
  fb.FB * avgAct

/-- `FFFBParams.FBUpdt` (inhib.go lines 98-100), returning the new `fbi`. -/
def FFFBParams.FBUpdt (fb : FFFBParams α) (fbi newFbi : α) : α :=
  fbi + fb.FBDt * (newFbi - fbi)

/-- `FFFBParams.Inhib` (inhib.go lines 103-117): the full FFFB computation
for one pool, returning the new inhibition state. -/
def FFFBParams.Inhib (fb : FFFBParams α) (avgGe maxGe avgAct : α)
    (inh : FFFBInhib α) : FFFBInhib α :=
  if !fb.On then FFFBInhib.init
  else
    let ffi := fb.FFInhib avgGe maxGe
    let fbi := fb.FBInhib avgAct
    let newFBi := fb.FBUpdt inh.FBi fbi
    let gi := fb.Gi * (ffi + newFBi)
    { FFi := ffi, FBi := newFBi, Gi := gi, GiOrig := gi }

/-- `leabra.SelfInhibParams` (inhib.go lines 142-147). -/
structure SelfInhibParams (α : Type) where
  On : Bool
  Gi : α
  Tau : α
  Dt : α
deriving DecidableEq

/-- `SelfInhibParams.Inhib` (inhib.go lines 161-167), returning the new
self-inhibition value. -/
def SelfInhibParams.Inhib (si : SelfInhibParams α) (self act : α) : α :=
  if si.On then self + si.Dt * (si.Gi * act - self) else 0

/-- `leabra.ActAvgParams` (inhib.go lines 176-185). -/
structure ActAvgParams (α : Type) where
  Init : α
  Fixed : Bool
  UseExtAct : Bool
  UseFirst : Bool
  Tau : α
  Adjust : α
  Dt : α
deriving DecidableEq

/-- `ActAvgParams.EffInit` (inhib.go lines 202-207). -/
def ActAvgParams.EffInit (aa : ActAvgParams α) : α :=
  if aa.Fixed then aa.Init else aa.Adjust * aa.Init

/-- `ActAvgParams.AvgFmAct` (inhib.go lines 210-219), returning the new
running average. -/
def ActAvgParams.AvgFmAct (aa : ActAvgParams α) (avg act : α) : α :=
  if act = 0 then avg
  else if aa.UseFirst ∧ avg = aa.Init then avg + (1 / 2) * (act - avg)
  else avg + aa.Dt * (act - avg)

/-- `ActAvgParams.EffFmAvg` (inhib.go lines 222-228), returning the new
effective value. -/
def ActAvgParams.EffFmAvg (aa : ActAvgParams α) (avg : α) : α :=
  if aa.Fixed then aa.Init else aa.Adjust * avg

/-- `leabra.InhibParams` (inhib.go lines 15-20). -/
structure InhibParams (α : Type) where
  Layer : FFFBParams α
  Pool : FFFBParams α
  Self : SelfInhibParams α
  ActAvg : ActAvgParams α
deriving DecidableEq

/-! ## Pool -/

/-- Modelled from the spec: `leabra.Pool` (its defining file is not among
the examined sources; `layer.go` reads/writes exactly these fields): the
neuron index range `[StIdx, EdIdx)`, running conductance and activation
statistics, the FFFB inhibition state, minus and plus phase snapshots, and
the three running-average activation values. -/
structure PoolActAvgs (α : Type) where
  ActMAvg : α
  ActPAvg : α
  ActPAvgEff : α
deriving DecidableEq

/-- Aggregate scope over a contiguous neuron index range. -/
structure Pool (α : Type) where
  StIdx : ℕ
  EdIdx : ℕ
  Inhib : FFFBInhib α
  Ge : AvgMax α
  Act : AvgMax α
  ActM : AvgMax α
  ActP : AvgMax α
  ActAvg : PoolActAvgs α
deriving DecidableEq

/-! ## Activation parameters and functions (part_001, act.go) -/

/-- Ion-channel value quadruple, `leabra.Chans` (part_001 lines 391-396). -/
structure Chans (α : Type) where
  E : α
  L : α
  I : α
  K : α
deriving DecidableEq

/-- `Chans.SetFmOtherMinus` (part_001 lines 404-406). -/
def Chans.SetFmOtherMinus (oth : Chans α) (minus : α) : Chans α :=
  ⟨oth.E - minus, oth.L - minus, oth.I - minus, oth.K - minus⟩

/-- `Chans.SetFmMinusOther` (part_001 lines 409-411). -/
def Chans.SetFmMinusOther (minus : α) (oth : Chans α) : Chans α :=
  ⟨minus - oth.E, minus - oth.L, minus - oth.I, minus - oth.K⟩

/-- Min/max range (external `minmax.F32`), with its `ClipVal`. -/
structure MinMaxRange (α : Type) where
  Min : α
  Max : α
deriving DecidableEq

/-- `minmax.F32.ClipVal`: clip a value into the range. -/
def MinMaxRange.ClipVal (r : MinMaxRange α) (v : α) : α :=
  if v < r.Min then r.Min else if v > r.Max then r.Max else v

/-- `leabra.XX1Params` (part_001 lines 214-230). -/
structure XX1Params (α : Type) where
  Thr : α
  Gain : α
  NVar : α
  VmActThr : α
  SigMult : α
  SigMultPow : α
  SigGain : α
  InterpRange : α
  GainCorRange : α
  GainCor : α
  SigGainNVar : α
  SigMultEff : α
  SigValAt0 : α
  InterpVal : α
deriving DecidableEq

/-- `XX1Params.XX1` (part_001 line 254): the basic `x/(x+1)`. -/
def XX1Params.XX1 (_ : XX1Params α) (x : α) : α := x / (x + 1)

/-- `XX1Params.XX1GainCor` (part_001 lines 258-265): `x/(x+1)` with the
gain linearly de-rated as `x` approaches `GainCorRange * NVar`. -/
def XX1Params.XX1GainCor (xp : XX1Params α) (x : α) : α :=
  let gainCorFact := (xp.GainCorRange - x / xp.NVar) / xp.GainCorRange
  if gainCorFact < 0 then xp.XX1 (xp.Gain * x)
  else xp.XX1 (xp.Gain * (1 - xp.GainCor * gainCorFact) * x)

/-- `XX1Params.Update` (part_001 lines 232-237): recompute the derived
constants; `math32.Pow` becomes `Real.rpow`, so this is stated on `ℝ`. -/
noncomputable def XX1Params.Update (xp : XX1Params ℝ) : XX1Params ℝ :=
  let sigMultEff := xp.SigMult * (xp.Gain * xp.NVar) ^ xp.SigMultPow
  let sigValAt0 := 0.5 * sigMultEff
  { xp with
    SigGainNVar := xp.SigGain / xp.NVar
    SigMultEff := sigMultEff
    SigValAt0 := sigValAt0
    InterpVal := xp.XX1GainCor xp.InterpRange - sigValAt0 }

/-- `XX1Params.NoisyXX1` (part_001 lines 272-281): sigmoid below zero,
linear interpolation on `[0, InterpRange)`, gain-corrected `x/(x+1)`
beyond; `math32.Exp` becomes `Real.exp`, so this is stated on `ℝ`. -/
noncomputable def XX1Params.NoisyXX1 (xp : XX1Params ℝ) (x : ℝ) : ℝ :=
  if x < 0 then xp.SigMultEff / (1 + Real.exp (-(x * xp.SigGainNVar)))
  else if x < xp.InterpRange then
    xp.SigValAt0 + (1 - (xp.InterpRange - x) / xp.InterpRange) * xp.InterpVal
  else xp.XX1GainCor x

/-- `leabra.OptThreshParams` (part_001 lines 319-322). -/
structure OptThreshParams (α : Type) where
  Send : α
  Delta : α
deriving DecidableEq

/-- `leabra.ActInitParams` (part_001 lines 337-342). -/
structure ActInitParams (α : Type) where
  Decay : α
  Vm : α
  Act : α
  Ge : α
deriving DecidableEq

/-- `leabra.DtParams` (part_001 lines 358-367). -/
structure DtParams (α : Type) where
  Integ : α
  VmTau : α
  GTau : α
  AvgTau : α
  VmDt : α
  GDt : α
  AvgDt : α
deriving DecidableEq

/-- `DtParams.GFmRaw` (part_001 lines 383-385), returning the new `ge`. -/
def DtParams.GFmRaw (dp : DtParams α) (geRaw ge : α) : α :=
  ge + dp.GDt * (geRaw - ge)

/-- `leabra.ActNoiseType` (part_001 lines 427-447). -/
inductive ActNoiseType where
  | NoNoise
  | VmNoise
  | GeNoise
  | ActNoise
  | GeMultNoise
deriving DecidableEq

/-- `leabra.ActNoiseParams` (part_001 lines 450-454); the random
distribution parameters (`erand.RndParams`) live in the external `erand`
collaborator, so only the type selector and the `Fixed` policy appear.
The Go field `Type` is spelled `Typ` because `Type` is a Lean keyword. -/
structure ActNoiseParams where
  Typ : ActNoiseType
  Fixed : Bool
deriving DecidableEq

/-- `leabra.ClampParams` (part_001 lines 514-520). -/
structure ClampParams (α : Type) where
  Hard : Bool
  Range : MinMaxRange α
  Gain : α
  Avg : Bool
  AvgGain : α
deriving DecidableEq

/-- `ClampParams.AvgGe` (part_001 lines 534-536). -/
def ClampParams.AvgGe (cp : ClampParams α) (ext ge : α) : α :=
  cp.AvgGain * cp.Gain * ext + (1 - cp.AvgGain) * ge

/-- `leabra.ActParams` (part_001 lines 21-33). -/
structure ActParams (α : Type) where
  XX1 : XX1Params α
  OptThresh : OptThreshParams α
  Init : ActInitParams α
  Dt : DtParams α
  Gbar : Chans α
  Erev : Chans α
  Clamp : ClampParams α
  Noise : ActNoiseParams
  VmRange : MinMaxRange α
  ErevSubThr : Chans α
  ThrSubErev : Chans α
deriving DecidableEq

/-- `ActParams.InetFmG` (part_001 lines 145-147). -/
def ActParams.InetFmG (ac : ActParams α) (vm ge gi gk : α) : α :=
  ge * (ac.Erev.E - vm) + ac.Gbar.L * (ac.Erev.L - vm) + gi * (ac.Erev.I - vm)
    + gk * (ac.Erev.K - vm)

/-- `ActParams.VmFmG` (part_001 lines 152-162): one Euler step of the
membrane potential, with optional `VmNoise`, clipped into `VmRange`. -/
def ActParams.VmFmG (ac : ActParams α) (nrn : Neuron α) : Neuron α :=
  let ge := nrn.Ge * ac.Gbar.E
  let gi := nrn.Gi * ac.Gbar.I
  let inet := ac.InetFmG nrn.Vm ge gi 0
  let nwVm := nrn.Vm + ac.Dt.VmDt * inet
  let nwVm := if ac.Noise.Typ = ActNoiseType.VmNoise then nwVm + nrn.Noise else nwVm
  { nrn with Inet := inet, Vm := ac.VmRange.ClipVal nwVm }

/-- `ActParams.GeThrFmG` (part_001 lines 165-167). -/
def ActParams.GeThrFmG (ac : ActParams α) (nrn : Neuron α) : α :=
  (ac.Gbar.I * nrn.Gi * ac.ErevSubThr.I + ac.Gbar.L * ac.ErevSubThr.L) / ac.ThrSubErev.E

/-- `ActParams.HasHardClamp` (part_001 lines 196-198). -/
def ActParams.HasHardClamp (ac : ActParams α) (nrn : Neuron α) : Bool :=
  ac.Clamp.Hard && nrn.HasExt

/-- `ActParams.HardClamp` (part_001 lines 201-207): activation is the
range-clipped external value, the membrane potential is back-computed
through the inverse transfer function, and the delta and net current are
zeroed. -/
def ActParams.HardClamp (ac : ActParams α) (nrn : Neuron α) : Neuron α :=
  let clmp := ac.Clamp.Range.ClipVal nrn.Ext
  { nrn with Act := clmp, Vm := ac.XX1.Thr + clmp / ac.XX1.Gain,
             ActDel := 0, Inet := 0 }

/-- `ActParams.ActFmG` (part_001 lines 170-193): hard-clamp short-circuit,
otherwise drive `NoisyXX1` from `Vm - Thr` below threshold or from
`Ge*Gbar.E - geThr` above it, smooth toward the previous activation at rate
`VmDt`, record the delta, and add `ActNoise` if configured.  Uses
`NoisyXX1`, so stated on `ℝ`. -/
noncomputable def ActParams.ActFmG (ac : ActParams ℝ) (nrn : Neuron ℝ) : Neuron ℝ :=
  if ac.HasHardClamp nrn then ac.HardClamp nrn
  else
    let nwAct :=
      if nrn.Act < ac.XX1.VmActThr ∧ nrn.Vm ≤ ac.XX1.Thr then
        ac.XX1.NoisyXX1 (nrn.Vm - ac.XX1.Thr)
      else
        ac.XX1.NoisyXX1 (nrn.Ge * ac.Gbar.E - ac.GeThrFmG nrn)
    let curAct := nrn.Act
    let nwAct := curAct + ac.Dt.VmDt * (nwAct - curAct)
    let actDel := nwAct - curAct
    let nwAct :=
      if ac.Noise.Typ = ActNoiseType.ActNoise then nwAct + nrn.Noise else nwAct
    { nrn with ActDel := actDel, Act := nwAct }

/-! ## Layer (layer.go) -/

/-- Layer roles from the external `emer` collaborator, as used by
`layer.go` (`emer.Input`, `emer.Hidden`, `emer.Target`, `emer.Compare`). -/
inductive LayerType where
  | Input
  | Hidden
  | Target
  | Compare
deriving DecidableEq

/-- Modelled from the spec: the neuron-level learning parameters
(`leabra.LearnNeurParams`, whose defining file is not among the examined
sources).  Only `AvgsFmAct` is needed here: it updates the cascaded
running-average activation traces (super-short, short, medium) that drive
learning, each a leaky integrator toward the previous stage. -/
structure LearnNeurParams (α : Type) where
  SSDt : α
  SDt : α
  MDt : α
deriving DecidableEq

/-- Modelled from the spec: cascaded running-average update from the
current activation (used by the per-cycle activation pass). -/
def LearnNeurParams.AvgsFmAct (lp : LearnNeurParams α) (nrn : Neuron α) : Neuron α :=
  let avgSS := nrn.AvgSS + lp.SSDt * (nrn.Act - nrn.AvgSS)
  let avgS := nrn.AvgS + lp.SDt * (avgSS - nrn.AvgS)
  let avgM := nrn.AvgM + lp.MDt * (avgS - nrn.AvgM)
  { nrn with AvgSS := avgSS, AvgS := avgS, AvgM := avgM }

/-- `leabra.Layer` (layer.go lines 29-38), restricted to the state the
cycle-level passes read and write.  `Pools[0]` (the whole-layer pool) is
the field `Pool0` and `Pools[1:]` (the sub-pools of a 4-D layer) the field
`SubPools`, so that the source's assumption `len(Pools) ≥ 1` is carried by
the type.  Projections are owned by external collaborators and do not
appear. -/
structure Layer (α : Type) where
  Neurons : List (Neuron α)
  Pool0 : Pool α
  SubPools : List (Pool α)
  Typ : LayerType
  Act : ActParams α
  Inhib : InhibParams α
  Learn : LearnNeurParams α
deriving DecidableEq

/-- The neurons of `ns` whose index lies in the pool range `[st, ed)`,
paired with their indices: the iteration space of the source loops
`for ni := pl.StIdx; ni < pl.EdIdx; ni++`. -/
def idxRange (ns : List (Neuron α)) (st ed : ℕ) : List (ℕ × Neuron α) :=
  ns.enum.filter fun p => st ≤ p.1 ∧ p.1 < ed

/-- `Layer.GenNoise` (layer.go lines 633-638): store a fresh noise sample
on every neuron.  The random draw `ly.Act.Noise.Gen(-1)` is supplied as the
explicit sample stream `gen` (one sample per neuron index).  Note: the
source loop has no `IsOff` check. -/
def Layer.GenNoise (ly : Layer α) (gen : ℕ → α) : Layer α :=
  { ly with Neurons := ly.Neurons.mapIdx fun ni n => { n with Noise := gen ni } }

/-- One pool's `Ge` statistics pass from `Layer.AvgMaxGe` (layer.go lines
816-826): `Init`, `UpdateVal(nrn.Ge, ni)` over the pool range (the source
loop has no `IsOff` check), `CalcAvg`. -/
def Pool.geStats (pl : Pool α) (ns : List (Neuron α)) : Pool α :=
  { pl with Ge := ((idxRange ns pl.StIdx pl.EdIdx).foldl
      (fun am p => am.updateVal p.2.Ge (p.1 : ℤ)) AvgMax.init).calcAvg }

/-- `Layer.AvgMaxGe` (layer.go lines 816-826). -/
def Layer.AvgMaxGe (ly : Layer α) : Layer α :=
  { ly with Pool0 := ly.Pool0.geStats ly.Neurons,
            SubPools := ly.SubPools.map (·.geStats ly.Neurons) }

/-- One pool's `Act` statistics pass from `Layer.AvgMaxAct` (layer.go lines
874-887): as `geStats` but neurons with the `NeurOff` flag are skipped. -/
def Pool.actStats (pl : Pool α) (ns : List (Neuron α)) : Pool α :=
  { pl with Act := ((idxRange ns pl.StIdx pl.EdIdx).foldl
      (fun am p => if p.2.IsOff then am else am.updateVal p.2.Act (p.1 : ℤ))
      AvgMax.init).calcAvg }

/-- `Layer.AvgMaxAct` (layer.go lines 874-887). -/
def Layer.AvgMaxAct (ly : Layer α) : Layer α :=
  { ly with Pool0 := ly.Pool0.actStats ly.Neurons,
            SubPools := ly.SubPools.map (·.actStats ly.Neurons) }

/-- The inner neuron loop shared by both branches of `Layer.InhibFmGeAct`
(layer.go lines 838-845 and 848-855): for every non-`Off` neuron in the
range `[st, ed)`, integrate self-inhibition and set
`Gi = giPool + GiSelf + GiSyn`. -/
def applyPoolGi (si : SelfInhibParams α) (giPool : α) (st ed : ℕ)
    (ns : List (Neuron α)) : List (Neuron α) :=
  ns.mapIdx fun ni n =>
    if st ≤ ni ∧ ni < ed ∧ n.IsOff = false then
      let giSelf := si.Inhib n.GiSelf n.Act
      { n with GiSelf := giSelf, Gi := giPool + giSelf + n.GiSyn }
    else n

/-- `Layer.InhibFmGeAct` (layer.go lines 829-857): layer-scope FFFB first;
with sub-pools, each sub-pool's FFFB gain is floored by the layer gain
(`pl.Inhib.Gi = max(pl.Inhib.Gi, lpl.Inhib.Gi)`) before the neuron loop
runs over that pool's range; without sub-pools the neuron loop runs over
the layer pool's range with the layer gain.  The sub-pool FFFB updates read
only already-final layer/pool statistics, so computing all pool records
before the (order-preserved) neuron loops is the same interleaving as the
source. -/
def Layer.InhibFmGeAct (ly : Layer α) : Layer α :=
  let lInh := ly.Inhib.Layer.Inhib ly.Pool0.Ge.Avg ly.Pool0.Ge.Max
      ly.Pool0.Act.Avg ly.Pool0.Inhib
  let lpl := { ly.Pool0 with Inhib := lInh }
  match ly.SubPools with
  | [] =>
      { ly with
        Pool0 := lpl
        Neurons := applyPoolGi ly.Inhib.Self lInh.Gi lpl.StIdx lpl.EdIdx ly.Neurons }
  | sp :: sps =>
      let newPool := fun (pl : Pool α) =>
        let pInh := ly.Inhib.Pool.Inhib pl.Ge.Avg pl.Ge.Max pl.Act.Avg pl.Inhib
        { pl with Inhib := { pInh with Gi := max pInh.Gi lInh.Gi } }
      let subPools := (sp :: sps).map newPool
      { ly with
        Pool0 := lpl
        SubPools := subPools
        Neurons := subPools.foldl
          (fun ns pl => applyPoolGi ly.Inhib.Self pl.Inhib.Gi pl.StIdx pl.EdIdx ns)
          ly.Neurons }

/-- `Layer.ActFmG` (layer.go lines 861-871): per non-`Off` neuron, membrane
potential, rate-code activation, then learning running averages. -/
noncomputable def Layer.ActFmG (ly : Layer ℝ) : Layer ℝ :=
  { ly with Neurons := ly.Neurons.map fun n =>
      if n.IsOff then n
      else ly.Learn.AvgsFmAct (ly.Act.ActFmG (ly.Act.VmFmG n)) }

/-! ## Phase-comparison statistic (layer.go, CosDiffFmActs) -/

/-- The `cosv` accumulator of `Layer.CosDiffFmActs` (layer.go lines
939-949): sum over non-`Off` neurons of the product of mean-centered plus-
and minus-phase activations. -/
noncomputable def cosvSum (ns : List (Neuron ℝ)) (avgM avgP : ℝ) : ℝ :=
  (ns.map fun n => if n.IsOff then 0 else (n.ActP - avgP) * (n.ActM - avgM)).sum

/-- The `ssm` accumulator of `Layer.CosDiffFmActs`: sum of squared
mean-centered minus-phase activations over non-`Off` neurons. -/
noncomputable def ssmSum (ns : List (Neuron ℝ)) (avgM : ℝ) : ℝ :=
  (ns.map fun n => if n.IsOff then 0 else (n.ActM - avgM) * (n.ActM - avgM)).sum

/-- The `ssp` accumulator of `Layer.CosDiffFmActs`: sum of squared
mean-centered plus-phase activations over non-`Off` neurons. -/
noncomputable def sspSum (ns : List (Neuron ℝ)) (avgP : ℝ) : ℝ :=
  (ns.map fun n => if n.IsOff then 0 else (n.ActP - avgP) * (n.ActP - avgP)).sum

/-- `Layer.CosDiffFmActs` (layer.go lines 932-966), the value stored into
`ly.CosDiff.Cos`: `cosv / sqrt(ssm*ssp)` when that norm is nonzero, the
raw `cosv` otherwise (the division is guarded).  The subsequent running
`Avg`/`Var` update and the BCM modulation factors derived from `Cos` are
out of scope here. -/
noncomputable def Layer.CosDiffFmActs (ly : Layer ℝ) : ℝ :=
  let avgM := ly.Pool0.ActM.Avg
  let avgP := ly.Pool0.ActP.Avg
  let cosv := cosvSum ly.Neurons avgM avgP
  let dist := Real.sqrt (ssmSum ly.Neurons avgM * sspSum ly.Neurons avgP)
  if dist ≠ 0 then cosv / dist else cosv

/-! ## External input (layer.go, ApplyExt1D / ApplyExt1D32) -/

/-- The per-neuron effect of applying one external value, from
`Layer.ApplyExtFlags` (layer.go lines 426-439) combined with the loop body
of `ApplyExt1D`/`ApplyExt1D32`: the value goes to `Targ` for `Target` and
`Compare` layers and to `Ext` otherwise; the three input flags are cleared
(`clrmsk`) and the layer-type's own flag set (`setmsk`). -/
def applyExtNeuron (typ : LayerType) (vl : α) (n : Neuron α) : Neuron α :=
  match typ with
  | LayerType.Target =>
      { n with Targ := vl, HasExt := false, HasTarg := true, HasCmpr := false }
  | LayerType.Compare =>
      { n with Targ := vl, HasExt := false, HasTarg := false, HasCmpr := true }
  | _ => { n with Ext := vl, HasExt := true, HasTarg := false, HasCmpr := false }

/-- `Layer.ApplyExt1D` (layer.go lines 506-523): apply a flat slice of
external values to the first `min(len(ext), len(Neurons))` neurons,
skipping `Off` neurons; indices beyond that bound are not visited and no
error is produced.  (The Go `float64 → float32` conversion of each value is
the identity in exact arithmetic.) -/
def Layer.ApplyExt1D (ly : Layer α) (ext : List α) : Layer α :=
  { ly with Neurons := ly.Neurons.mapIdx fun i n =>
      if i < min ext.length ly.Neurons.length ∧ n.IsOff = false then
        applyExtNeuron ly.Typ (ext.getD i 0) n
      else n }

/-- `Layer.ApplyExt1D32` (layer.go lines 528-545): identical to
`ApplyExt1D` except that the Go slice element type is already `float32`;
in exact arithmetic the two bodies coincide. -/
def Layer.ApplyExt1D32 (ly : Layer α) (ext : List α) : Layer α :=
  { ly with Neurons := ly.Neurons.mapIdx fun i n =>
      if i < min ext.length ly.Neurons.length ∧ n.IsOff = false then
        applyExtNeuron ly.Typ (ext.getD i 0) n
      else n }

/-! ## Introspection (layer.go, UnitVal1DTry / PoolTry) -/

/-- The two explicit failure kinds these introspection paths produce (Go
builds them with `fmt.Errorf`): an index outside `[0, n)`, reported with
the offending index and the valid bound, or an unrecognized variable
name. -/
inductive LayerErr where
  | idxRange (idx : ℤ) (n : ℕ)
  | badVarName (varNm : String)
deriving DecidableEq

/-- Modelled from the spec: `Neuron.VarByName` (neuron.go is not among the
examined sources): named read access to the neuron's float fields; an
invalid variable name is reported as an explicit failure together with the
default value 0. -/
def Neuron.VarByName (n : Neuron α) (varNm : String) : α × Option LayerErr :=
  match varNm with
  | "Act" => (n.Act, none)
  | "ActSent" => (n.ActSent, none)
  | "Ge" => (n.Ge, none)
  | "GeRaw" => (n.GeRaw, none)
  | "GeInc" => (n.GeInc, none)
  | "Gi" => (n.Gi, none)
  | "GiRaw" => (n.GiRaw, none)
  | "GiInc" => (n.GiInc, none)
  | "GiSyn" => (n.GiSyn, none)
  | "GiSelf" => (n.GiSelf, none)
  | "Vm" => (n.Vm, none)
  | "Inet" => (n.Inet, none)
  | "Ext" => (n.Ext, none)
  | "Targ" => (n.Targ, none)
  | "ActDel" => (n.ActDel, none)
  | "ActM" => (n.ActM, none)
  | "ActP" => (n.ActP, none)
  | "ActQ0" => (n.ActQ0, none)
  | "ActQ1" => (n.ActQ1, none)
  | "ActQ2" => (n.ActQ2, none)
  | "ActDif" => (n.ActDif, none)
  | "ActAvg" => (n.ActAvg, none)
  | "AvgSS" => (n.AvgSS, none)
  | "AvgS" => (n.AvgS, none)
  | "AvgM" => (n.AvgM, none)
  | "Noise" => (n.Noise, none)
  | nm => (0, some (LayerErr.badVarName nm))

/-- `Layer.UnitVal1DTry` (layer.go lines 178-185): out-of-range indices
yield the default value 0 together with an explicit failure carrying the
offending index and the valid bound; in-range indices defer to
`Neuron.VarByName`. -/
def Layer.UnitVal1DTry (ly : Layer α) (varNm : String) (idx : ℤ) :
    α × Option LayerErr :=
  if h : 0 ≤ idx ∧ idx < (ly.Neurons.length : ℤ) then
    Neuron.VarByName (ly.Neurons.get ⟨idx.toNat, by omega⟩) varNm
  else (0, some (LayerErr.idxRange idx ly.Neurons.length))

/-- `Layer.PoolTry` (layer.go lines 193-199): out-of-range pool indices
yield `nil` (here `none`) together with an explicit failure carrying the
offending index and the valid bound. -/
def Layer.PoolTry (ly : Layer α) (idx : ℤ) : Option (Pool α) × Option LayerErr :=
  if h : 0 ≤ idx ∧ idx < ((ly.Pool0 :: ly.SubPools).length : ℤ) then
    (some ((ly.Pool0 :: ly.SubPools).get ⟨idx.toNat, by omega⟩), none)
  else (none, some (LayerErr.idxRange idx (ly.Pool0 :: ly.SubPools).length))

/-! ## Lesioning (layer.go, LesionNeurons / UnLesionNeurons) -/

/-- `Layer.UnLesionNeurons` (layer.go lines 1044-1049): clear the `NeurOff`
flag on every neuron. -/
def Layer.UnLesionNeurons (ly : Layer α) : Layer α :=
  { ly with Neurons := ly.Neurons.map fun n => { n with Off := false } }

/-- `Layer.LesionNeurons` (layer.go lines 1054-1071): un-lesion first; a
proportion above 1 is an error that lesions nothing; otherwise set
`NeurOff` on the neurons indexed by the first `int(prop*nn)` entries of
the random permutation `rand.Perm(nn)`, which is supplied here as the
explicit `perm` argument.  Returns the number lesioned. -/
def Layer.LesionNeurons (ly : Layer α) (perm : List ℕ) (prop : ℚ) :
    Layer α × ℕ :=
  let uly := ly.UnLesionNeurons
  if 1 < prop then (uly, 0)
  else if ly.Neurons.length = 0 then (uly, 0)
  else
    let nl := (⌊prop * (ly.Neurons.length : ℚ)⌋).toNat
    ({ uly with Neurons := uly.Neurons.mapIdx fun i n =>
        if i ∈ perm.take nl then { n with Off := true } else n }, nl)

/-! ## Theorems -/

/-! ### C5: the weight-balance counter -/

/-- C5, counterexample: the claim says `WtBalCtr` "resets to zero at trial
start", but `Network.AlphaCycInit` (part_000 lines 114-123) only dispatches
per-layer initialization and leaves the counter untouched: starting a trial
with the counter at 3 leaves it at 3, not 0.  (Only `Network.InitWts`,
part_000 line 57, zeroes it.) -/
theorem alphaCycInit_leaves_wtBalCtr :
    (NetworkCtr.AlphaCycInit ⟨10, 3⟩).WtBalCtr = 3 ∧ (3 : ℕ) ≠ 0 :=
  ⟨rfl, by decide⟩

/-- C5, amended: the counter resets to zero at weight initialization
(`InitWts`), not at trial start (`AlphaCycInit`, which leaves it
unchanged); `WtFmDWt` increments it exactly once per call, triggers the
network-wide `WtBalFmWt` exactly when the incremented counter reaches
`WtBalInterval` and then resets it to zero; consequently, whenever the
interval is at least 1, the counter is strictly below the interval after
every weight-update call. -/
theorem wtBalCtr_discipline (nt : NetworkCtr) (h : 1 ≤ nt.WtBalInterval) :
    nt.InitWts.WtBalCtr = 0
    ∧ nt.AlphaCycInit = nt
    ∧ nt.WtFmDWt.1.WtBalCtr
        = (if nt.WtBalInterval ≤ nt.WtBalCtr + 1 then 0 else nt.WtBalCtr + 1)
    ∧ (nt.WtFmDWt.2 = true ↔ nt.WtBalInterval ≤ nt.WtBalCtr + 1)
    ∧ nt.WtFmDWt.1.WtBalCtr < nt.WtBalInterval := by
  by_cases hc : nt.WtBalInterval ≤ nt.WtBalCtr + 1 <;>
    simp [NetworkCtr.InitWts, NetworkCtr.AlphaCycInit, NetworkCtr.WtFmDWt, hc] <;>
    omega

/-- C5, witness for `wtBalCtr_discipline` at the concrete network state
with interval 10 and counter 9 (the call that triggers rebalancing). -/
theorem wtBalCtr_discipline_witness :
    (NetworkCtr.InitWts ⟨10, 9⟩).WtBalCtr = 0
    ∧ NetworkCtr.AlphaCycInit ⟨10, 9⟩ = ⟨10, 9⟩
    ∧ (NetworkCtr.WtFmDWt ⟨10, 9⟩).1.WtBalCtr = (if 10 ≤ 9 + 1 then 0 else 9 + 1)
    ∧ ((NetworkCtr.WtFmDWt ⟨10, 9⟩).2 = true ↔ 10 ≤ 9 + 1)
    ∧ (NetworkCtr.WtFmDWt ⟨10, 9⟩).1.WtBalCtr < 10 :=
  wtBalCtr_discipline ⟨10, 9⟩ (by norm_num)

/-! ### C4: synaptic depression factor -/

/-- An all-zero synapse record, base for concrete synapse inputs. -/
def syZero : Synapse :=
  ⟨0, 0, 0, 0, 0, 0, 0, 0, 0, 0, 0, 0, 0, 0, 0, 0⟩

/-- C4: for any synapse whose parameters are in their documented ranges
(`sd_ca_thr ∈ [0,1)`, `sd_ca_gain ∈ [0,1]`, the `#READ_ONLY` derived value
`sd_ca_thr_rescale = sd_ca_gain/(1 - sd_ca_thr)`) and whose calcium trace
satisfies the `[0,1]` invariant, `SynDep` lies in `[0,1]` and equals 1
whenever `Cai ≤ sd_ca_thr`; and one step of `CaUpdt` (drive
`ru_act*su_act*Effwt` in `[0,1]`, rate constants in `[0,1]`) keeps the
trace in `[0,1]` and lowers it by at most the `Ca_dec` decay toward zero,
so the `[0,1]` invariant of the depression factor is preserved by the
per-cycle calcium update. -/
theorem synDep_unit_interval (sy : Synapse) (ru su : ℚ)
    (hthr0 : 0 ≤ sy.sd_ca_thr) (hthr1 : sy.sd_ca_thr < 1)
    (hg0 : 0 ≤ sy.sd_ca_gain) (hg1 : sy.sd_ca_gain ≤ 1)
    (hres : sy.sd_ca_thr_rescale = sy.sd_ca_gain / (1 - sy.sd_ca_thr))
    (hc0 : 0 ≤ sy.Cai) (hc1 : sy.Cai ≤ 1)
    (hd0 : 0 ≤ ru * su * sy.Effwt) (hd1 : ru * su * sy.Effwt ≤ 1)
    (hinc0 : 0 ≤ sy.Ca_inc) (hinc1 : sy.Ca_inc ≤ 1)
    (hdec0 : 0 ≤ sy.Ca_dec) (hdec1 : sy.Ca_dec ≤ 1) :
    0 ≤ sy.SynDep ∧ sy.SynDep ≤ 1
    ∧ (sy.sd_ca_thr < sy.Cai ∨ sy.SynDep = 1)
    ∧ (1 - sy.Ca_dec) * sy.Cai ≤ (sy.CaUpdt ru su).Cai
    ∧ 0 ≤ (sy.CaUpdt ru su).Cai ∧ (sy.CaUpdt ru su).Cai ≤ 1 := by
  have hgap : (0 : ℚ) < 1 - sy.sd_ca_thr := by linarith
  have hre0 : 0 ≤ sy.sd_ca_thr_rescale := by
    rw [hres]; exact div_nonneg hg0 hgap.le
  have hreB : sy.sd_ca_thr_rescale * (1 - sy.sd_ca_thr) = sy.sd_ca_gain := by
    rw [hres, div_mul_cancel₀ _ (ne_of_gt hgap)]
  have hcau : (sy.CaUpdt ru su).Cai
      = sy.Cai + sy.Ca_inc * (1 - sy.Cai) * (ru * su * sy.Effwt)
        - sy.Ca_dec * sy.Cai := rfl
  have hdep : sy.SynDep
      = (if sy.sd_ca_thr < sy.Cai then
          1 - sy.sd_ca_thr_rescale * (sy.Cai - sy.sd_ca_thr) else 1)
        * (if sy.sd_ca_thr < sy.Cai then
          1 - sy.sd_ca_thr_rescale * (sy.Cai - sy.sd_ca_thr) else 1) := rfl
  have hdrive : 0 ≤ sy.Ca_inc * (1 - sy.Cai) * (ru * su * sy.Effwt) :=
    mul_nonneg (mul_nonneg hinc0 (by linarith)) hd0
  refine ⟨?_, ?_, ?_, ?_, ?_, ?_⟩
  · rw [hdep]
    split <;> [exact mul_self_nonneg _; norm_num]
  · rw [hdep]
    split
    · rename_i hca
      have ht0 : 0 ≤ sy.sd_ca_thr_rescale * (sy.Cai - sy.sd_ca_thr) :=
        mul_nonneg hre0 (by linarith)
      have ht1 : sy.sd_ca_thr_rescale * (sy.Cai - sy.sd_ca_thr)
          ≤ sy.sd_ca_gain := by
        calc sy.sd_ca_thr_rescale * (sy.Cai - sy.sd_ca_thr)
            ≤ sy.sd_ca_thr_rescale * (1 - sy.sd_ca_thr) :=
              mul_le_mul_of_nonneg_left (by linarith) hre0
          _ = sy.sd_ca_gain := hreB
      nlinarith
    · norm_num
  · by_cases hca : sy.sd_ca_thr < sy.Cai
    · exact Or.inl hca
    · refine Or.inr ?_
      rw [hdep, if_neg hca, one_mul]
  · rw [hcau]; linarith
  · rw [hcau]
    nlinarith [mul_nonneg hc0 (by linarith : (0:ℚ) ≤ 1 - sy.Ca_dec)]
  · rw [hcau]
    have hid : sy.Ca_inc * (ru * su * sy.Effwt) ≤ 1 := by nlinarith
    nlinarith [mul_nonneg (by linarith : (0:ℚ) ≤ 1 - sy.Cai)
        (by linarith : (0:ℚ) ≤ 1 - sy.Ca_inc * (ru * su * sy.Effwt)),
      mul_nonneg hdec0 hc0]

/-- The concrete synapse used to witness `synDep_unit_interval`: calcium
trace 1/2, threshold 1/5, gain 3/10, rescale 3/8 = (3/10)/(1 - 1/5). -/
def caSyn : Synapse :=
  { syZero with
    Cai := 1/2
    Effwt := 1
    Ca_inc := 1/5
    Ca_dec := 1/5
    sd_ca_thr := 1/5
    sd_ca_gain := 3/10
    sd_ca_thr_rescale := 3/8 }

/-- C4, witness for `synDep_unit_interval` at `caSyn` with both
activations 1. -/
theorem synDep_unit_interval_witness :
    0 ≤ caSyn.SynDep ∧ caSyn.SynDep ≤ 1
    ∧ (caSyn.sd_ca_thr < caSyn.Cai ∨ caSyn.SynDep = 1)
    ∧ (1 - caSyn.Ca_dec) * caSyn.Cai ≤ (caSyn.CaUpdt 1 1).Cai
    ∧ 0 ≤ (caSyn.CaUpdt 1 1).Cai ∧ (caSyn.CaUpdt 1 1).Cai ≤ 1 :=
  synDep_unit_interval caSyn 1 1
    (by norm_num [caSyn, syZero]) (by norm_num [caSyn, syZero])
    (by norm_num [caSyn, syZero]) (by norm_num [caSyn, syZero])
    (by norm_num [caSyn, syZero]) (by norm_num [caSyn, syZero])
    (by norm_num [caSyn, syZero]) (by norm_num [caSyn, syZero])
    (by norm_num [caSyn, syZero]) (by norm_num [caSyn, syZero])
    (by norm_num [caSyn, syZero]) (by norm_num [caSyn, syZero])
    (by norm_num [caSyn, syZero])

/-! ### Concrete builders used by witnesses and counterexamples -/

/-- All-zero `XX1Params`. -/
def xx1Zero : XX1Params α := ⟨0, 0, 0, 0, 0, 0, 0, 0, 0, 0, 0, 0, 0, 0⟩

/-- All-zero activation parameters with hard clamping on and no noise. -/
def actZero : ActParams α :=
  { XX1 := xx1Zero
    OptThresh := ⟨0, 0⟩
    Init := ⟨0, 0, 0, 0⟩
    Dt := ⟨0, 0, 0, 0, 0, 0, 0⟩
    Gbar := ⟨0, 0, 0, 0⟩
    Erev := ⟨0, 0, 0, 0⟩
    Clamp := { Hard := true, Range := ⟨0, 0⟩, Gain := 0, Avg := false, AvgGain := 0 }
    Noise := ⟨ActNoiseType.NoNoise, false⟩
    VmRange := ⟨0, 0⟩
    ErevSubThr := ⟨0, 0, 0, 0⟩
    ThrSubErev := ⟨0, 0, 0, 0⟩ }

/-- Disabled FFFB parameters (all zero, `On = false`). -/
def fffbZero : FFFBParams α := ⟨false, 0, 0, 0, 0, 0, 0, 0, 0, 0, 0, 0⟩

/-- Disabled inhibition parameter block. -/
def inhibZero : InhibParams α :=
  { Layer := fffbZero
    Pool := fffbZero
    Self := ⟨false, 0, 0, 0⟩
    ActAvg := ⟨0, false, false, false, 0, 0, 0⟩ }

/-- A pool over the index range `[st, ed)` with freshly initialized
statistics and zero inhibition state. -/
def poolOver (st ed : ℕ) : Pool α :=
  { StIdx := st, EdIdx := ed, Inhib := FFFBInhib.init, Ge := AvgMax.init,
    Act := AvgMax.init, ActM := AvgMax.init, ActP := AvgMax.init,
    ActAvg := ⟨0, 0, 0⟩ }

/-- A single-pool hidden layer over the given neurons, with all-zero
parameters. -/
def layerOver (ns : List (Neuron α)) : Layer α :=
  { Neurons := ns, Pool0 := poolOver 0 ns.length, SubPools := [],
    Typ := LayerType.Hidden, Act := actZero, Inhib := inhibZero,
    Learn := ⟨0, 0, 0⟩ }

/-! ### C10: ApplyExt1D / ApplyExt1D32 write only the active prefix -/

/-- C10: both `ApplyExt1D` and `ApplyExt1D32` keep the neuron slice
allocated at its length, leave every neuron at an index at or beyond
`min(len(ext), len(Neurons))` untouched (excess input entries are silently
dropped, and no error value exists in the Go signatures to return), and
leave every `Off` (lesioned) neuron completely unchanged, its `Ext`/`Targ`
values and input flags included, even when `ext` supplies a value for its
index. -/
theorem applyExt1D_prefix_off_frame (ly : Layer α) (ext : List α) (i : ℕ) :
    (ly.ApplyExt1D ext).Neurons.length = ly.Neurons.length
    ∧ (ly.ApplyExt1D32 ext).Neurons.length = ly.Neurons.length
    ∧ (min ext.length ly.Neurons.length ≤ i →
        (ly.ApplyExt1D ext).Neurons[i]? = ly.Neurons[i]?
        ∧ (ly.ApplyExt1D32 ext).Neurons[i]? = ly.Neurons[i]?)
    ∧ (∀ n : Neuron α, ly.Neurons[i]? = some n → n.IsOff = true →
        (ly.ApplyExt1D ext).Neurons[i]? = some n
        ∧ (ly.ApplyExt1D32 ext).Neurons[i]? = some n) := by
  refine ⟨by simp [Layer.ApplyExt1D], by simp [Layer.ApplyExt1D32], ?_, ?_⟩
  · intro h
    have hcond : ¬(i < ext.length ∧ i < ly.Neurons.length) := by
      rw [← lt_min_iff]
      exact not_lt.mpr h
    constructor <;>
      simp [Layer.ApplyExt1D, Layer.ApplyExt1D32, hcond]
  · intro n hn hoff
    constructor <;>
      simp [Layer.ApplyExt1D, Layer.ApplyExt1D32, hn, hoff]

/-! ### C9: introspection range errors -/

/-- Modelled from the spec: the `NeuronVars` variable-name list
(neuron.go is not among the examined sources), restricted to the fields
carried by this embedding. -/
def NeuronVars : List String :=
  ["Act", "ActSent", "Ge", "GeRaw", "GeInc", "Gi", "GiRaw", "GiInc",
   "GiSyn", "GiSelf", "Vm", "Inet", "Ext", "Targ", "ActDel", "ActM",
   "ActP", "ActQ0", "ActQ1", "ActQ2", "ActDif", "ActAvg", "AvgSS",
   "AvgS", "AvgM", "Noise"]

/-- A recognized variable name is read back without a failure. -/
theorem varByName_valid (n : Neuron α) (nm : String) (h : nm ∈ NeuronVars) :
    (n.VarByName nm).2 = none := by
  fin_cases h <;> rfl

/-- A one-neuron layer used to exercise the introspection paths. -/
def introLayer : Layer ℚ := layerOver [Neuron.zeroed]

/-- C9, counterexample: the claim says every in-range index query returns
its value without error, but `UnitVal1DTry` with the in-range index 0 on a
one-neuron layer still reports an explicit failure when the variable name
is not recognized (`Neuron.VarByName`, modelled from the spec's
"invalid variable name lookups — reported as explicit failures"). -/
theorem unitVal1DTry_inRange_name_error :
    introLayer.Neurons.length = 1
    ∧ (introLayer.UnitVal1DTry "Bogus" 0).2 ≠ none := by
  constructor
  · rfl
  · simp [Layer.UnitVal1DTry, introLayer, layerOver, Neuron.VarByName]

/-- C9, amended: an out-of-range unit (resp. pool) index makes
`UnitVal1DTry` (resp. `PoolTry`) return the default value 0 (resp. `nil`)
together with an explicit failure carrying the offending index and the
valid bound, and never aborts; an in-range index returns the value without
failure provided the queried variable name is recognized (for `PoolTry`,
unconditionally). -/
theorem unitVal_poolTry_range_errors (ly : Layer α) (varNm : String) (idx : ℤ) :
    (¬(0 ≤ idx ∧ idx < (ly.Neurons.length : ℤ)) →
        ly.UnitVal1DTry varNm idx
          = (0, some (LayerErr.idxRange idx ly.Neurons.length)))
    ∧ (¬(0 ≤ idx ∧ idx < ((ly.Pool0 :: ly.SubPools).length : ℤ)) →
        ly.PoolTry idx
          = (none, some (LayerErr.idxRange idx (ly.Pool0 :: ly.SubPools).length)))
    ∧ ((0 ≤ idx ∧ idx < (ly.Neurons.length : ℤ)) → varNm ∈ NeuronVars →
        (ly.UnitVal1DTry varNm idx).2 = none)
    ∧ ((0 ≤ idx ∧ idx < ((ly.Pool0 :: ly.SubPools).length : ℤ)) →
        (ly.PoolTry idx).2 = none ∧ (ly.PoolTry idx).1 ≠ none) := by
  refine ⟨?_, ?_, ?_, ?_⟩
  · intro h
    rw [Layer.UnitVal1DTry, dif_neg h]
  · intro h
    rw [Layer.PoolTry, dif_neg h]
  · intro h hmem
    rw [Layer.UnitVal1DTry, dif_pos h]
    exact varByName_valid _ _ hmem
  · intro h
    rw [Layer.PoolTry, dif_pos h]
    exact ⟨rfl, by simp⟩

/-! ### C8: lesioning a proportion of the neurons -/

/-- Auxiliary: counting over `range nn` the members of a duplicate-free
list bounded by `nn` recovers its length. -/
theorem countP_range_mem (sel : List ℕ) (nn : ℕ) (hnd : sel.Nodup)
    (hsub : ∀ x ∈ sel, x < nn) :
    (List.range nn).countP (fun x => decide (x ∈ sel)) = sel.length := by
  rw [List.countP_eq_length_filter]
  have hperm : List.Perm ((List.range nn).filter (fun x => decide (x ∈ sel))) sel := by
    rw [List.perm_ext_iff_of_nodup
      (List.Nodup.filter _ (List.nodup_range nn)) hnd]
    intro a
    simp only [List.mem_filter, List.mem_range, decide_eq_true_eq]
    exact ⟨fun ha => ha.2, fun ha => ⟨hsub a ha, ha⟩⟩
  exact hperm.length_eq

/-- Auxiliary: `countP` respects pointwise agreement on members. -/
theorem countP_congr_mem {β : Type} (l : List β) (p q : β → Bool)
    (h : ∀ a ∈ l, p a = q a) : l.countP p = l.countP q := by
  induction l with
  | nil => rfl
  | cons a t ih =>
      simp only [List.countP_cons, h a (List.mem_cons_self a t),
        ih fun b hb => h b (List.mem_cons_of_mem a hb)]

/-- C8: `LesionNeurons` with a proportion in `[0,1]` on a non-empty layer
returns `⌊prop·n⌋` and sets the `NeurOff` flag on exactly that many
neurons (distinctness is inherent: each neuron is counted once in its
slot), because the sampling indices are the first `⌊prop·n⌋` entries of a
random permutation of the index space (sampling without replacement); the
neuron slice stays allocated at its length, and `UnLesionNeurons`
afterwards clears the flag on every neuron. -/
theorem lesionNeurons_count (ly : Layer α) (perm : List ℕ) (prop : ℚ)
    (hperm : perm.Perm (List.range ly.Neurons.length))
    (h0 : 0 ≤ prop) (h1 : prop ≤ 1) (hnn : ly.Neurons.length ≠ 0) :
    (ly.LesionNeurons perm prop).2 = (⌊prop * (ly.Neurons.length : ℚ)⌋).toNat
    ∧ (ly.LesionNeurons perm prop).1.Neurons.countP (·.IsOff)
        = (⌊prop * (ly.Neurons.length : ℚ)⌋).toNat
    ∧ (ly.LesionNeurons perm prop).1.Neurons.length = ly.Neurons.length
    ∧ ((ly.LesionNeurons perm prop).1.UnLesionNeurons).Neurons.countP (·.IsOff)
        = 0 := by
  have hnp : ¬(1 : ℚ) < prop := not_lt.mpr h1
  set nl := (⌊prop * (ly.Neurons.length : ℚ)⌋).toNat with hnl
  set sel := perm.take nl with hsel
  have hlesion : ly.LesionNeurons perm prop
      = ({ ly.UnLesionNeurons with
            Neurons := ly.UnLesionNeurons.Neurons.mapIdx fun i n =>
              if i ∈ sel then { n with Off := true } else n },
         nl) := by
    simp only [Layer.LesionNeurons, if_neg hnp, if_neg hnn, hnl, hsel]
  have hselnd : sel.Nodup :=
    (List.take_sublist nl perm).nodup (hperm.symm.nodup (List.nodup_range _))
  have hselsub : ∀ x ∈ sel, x < ly.Neurons.length := fun x hx =>
    List.mem_range.mp ((hperm.mem_iff).mp ((List.take_subset nl perm) hx))
  have hullen : ly.UnLesionNeurons.Neurons.length = ly.Neurons.length := by
    simp [Layer.UnLesionNeurons]
  have hnlperm : nl ≤ perm.length := by
    rw [hperm.length_eq, List.length_range]
    have hmul : prop * (ly.Neurons.length : ℚ) ≤ (ly.Neurons.length : ℚ) :=
      mul_le_of_le_one_left (Nat.cast_nonneg _) h1
    have hfl : (⌊prop * (ly.Neurons.length : ℚ)⌋ : ℤ) ≤ ly.Neurons.length := by
      calc (⌊prop * (ly.Neurons.length : ℚ)⌋ : ℤ)
          ≤ ⌊((ly.Neurons.length : ℕ) : ℚ)⌋ := Int.floor_le_floor hmul
        _ = ly.Neurons.length := Int.floor_natCast _
    omega
  have hcount : (ly.LesionNeurons perm prop).1.Neurons.countP (·.IsOff) = nl := by
    have e1 : (ly.LesionNeurons perm prop).1.Neurons
        = (ly.UnLesionNeurons.Neurons.enum).map
            (Function.uncurry fun i n =>
              if i ∈ sel then { n with Off := true } else n) := by
      rw [hlesion]
      exact List.mapIdx_eq_enum_map
    calc (ly.LesionNeurons perm prop).1.Neurons.countP (·.IsOff)
        = (ly.UnLesionNeurons.Neurons.enum).countP
            ((fun n : Neuron α => n.IsOff) ∘ Function.uncurry fun i n =>
              if i ∈ sel then { n with Off := true } else n) := by
          rw [e1, List.countP_map]
      _ = (ly.UnLesionNeurons.Neurons.enum).countP
            ((fun i => decide (i ∈ sel)) ∘ Prod.fst) := by
          apply countP_congr_mem
          intro p hp
          have hmem : p.2 ∈ ly.UnLesionNeurons.Neurons :=
            List.snd_mem_of_mem_enum hp
          have hoff : p.2.Off = false := by
            simp only [Layer.UnLesionNeurons, List.mem_map] at hmem
            obtain ⟨m, _, hm⟩ := hmem
            rw [← hm]
          by_cases hin : p.1 ∈ sel <;>
            simp [Function.uncurry, hin, Neuron.IsOff, hoff]
      _ = ((ly.UnLesionNeurons.Neurons.enum).map Prod.fst).countP
            (fun i => decide (i ∈ sel)) := (List.countP_map _ _ _).symm
      _ = (List.range ly.Neurons.length).countP (fun i => decide (i ∈ sel)) := by
          rw [List.enum_map_fst, hullen]
      _ = sel.length := countP_range_mem sel _ hselnd hselsub
      _ = nl := by rw [hsel, List.length_take, min_eq_left hnlperm]
  refine ⟨?_, hcount, ?_, ?_⟩
  · rw [hlesion]
  · rw [hlesion]
    simp [hullen]
  · simp [Layer.UnLesionNeurons, List.countP_eq_zero, Neuron.IsOff]

/-- The 10-neuron layer of the lesioning scenario. -/
def lesLayer : Layer ℚ := layerOver (List.replicate 10 Neuron.zeroed)

/-- The concrete permutation standing in for `rand.Perm(10)`. -/
def lesPerm : List ℕ := [3, 7, 1, 9, 0, 2, 4, 5, 6, 8]

/-- C8, witness for `lesionNeurons_count`: proportion 1/2 on the 10-neuron
layer lesions exactly 5 neurons (`⌊1/2·10⌋ = 5`) and returns 5, and
un-lesioning clears all flags. -/
theorem lesionNeurons_count_witness :
    (⌊(1/2 : ℚ) * ((10 : ℕ) : ℚ)⌋).toNat = 5
    ∧ ((lesLayer.LesionNeurons lesPerm (1/2)).2
        = (⌊(1/2 : ℚ) * ((lesLayer.Neurons.length : ℕ) : ℚ)⌋).toNat
      ∧ (lesLayer.LesionNeurons lesPerm (1/2)).1.Neurons.countP (·.IsOff)
        = (⌊(1/2 : ℚ) * ((lesLayer.Neurons.length : ℕ) : ℚ)⌋).toNat
      ∧ (lesLayer.LesionNeurons lesPerm (1/2)).1.Neurons.length
        = lesLayer.Neurons.length
      ∧ ((lesLayer.LesionNeurons lesPerm (1/2)).1.UnLesionNeurons).Neurons.countP
          (·.IsOff) = 0) :=
  ⟨by norm_num; rfl,
   lesionNeurons_count lesLayer lesPerm (1/2)
     (by rw [show lesLayer.Neurons.length = 10 by rfl]; decide)
     (by norm_num) (by norm_num) (by decide)⟩

/-! ### C6: hard clamping short-circuits the activation pipeline -/

/-- C6: for a neuron with external input under hard clamping, `ActFmG` is
exactly `HardClamp`: activation is the range-clipped external value, the
activation delta and net current are zero, the membrane potential is
back-computed as `Thr + Act/Gain`, and every other field — conductances,
noise, phase snapshots — is untouched, so no smoothing and no noise is
applied. -/
theorem actFmG_hard_clamp (ac : ActParams ℝ) (nrn : Neuron ℝ)
    (hhard : ac.Clamp.Hard = true) (hext : nrn.HasExt = true) :
    ac.ActFmG nrn = ac.HardClamp nrn
    ∧ (ac.ActFmG nrn).Act = ac.Clamp.Range.ClipVal nrn.Ext
    ∧ (ac.ActFmG nrn).ActDel = 0
    ∧ (ac.ActFmG nrn).Inet = 0
    ∧ (ac.ActFmG nrn).Vm = ac.XX1.Thr + ac.Clamp.Range.ClipVal nrn.Ext / ac.XX1.Gain
    ∧ (ac.ActFmG nrn).Ge = nrn.Ge ∧ (ac.ActFmG nrn).Gi = nrn.Gi
    ∧ (ac.ActFmG nrn).Noise = nrn.Noise
    ∧ (ac.ActFmG nrn).ActM = nrn.ActM ∧ (ac.ActFmG nrn).ActP = nrn.ActP := by
  have hc : ac.HasHardClamp nrn = true := by
    simp [ActParams.HasHardClamp, hhard, hext]
  have he : ac.ActFmG nrn = ac.HardClamp nrn := by
    rw [ActParams.ActFmG, if_pos hc]
  refine ⟨he, ?_, ?_, ?_, ?_, ?_, ?_, ?_, ?_, ?_⟩ <;> rw [he, ActParams.HardClamp]

/-- The concrete hard-clamp parameters for the C6 witness: threshold 1/2,
gain 100, clamp range [0, 19/20]. -/
noncomputable def clampAct : ActParams ℝ :=
  { actZero with
    XX1 := { xx1Zero with Thr := 1/2, Gain := 100 }
    Clamp := { Hard := true, Range := ⟨0, 19/20⟩, Gain := 1/5, Avg := false,
               AvgGain := 1/5 } }

/-- The concrete neuron for the C6 witness: external input 3/10, `HasExt`
set. -/
noncomputable def clampNrn : Neuron ℝ :=
  { Neuron.zeroed with Ext := 3/10, HasExt := true }

/-- C6, witness for `actFmG_hard_clamp` at `clampAct`/`clampNrn`. -/
theorem actFmG_hard_clamp_witness :
    clampAct.ActFmG clampNrn = clampAct.HardClamp clampNrn
    ∧ (clampAct.ActFmG clampNrn).Act = clampAct.Clamp.Range.ClipVal clampNrn.Ext
    ∧ (clampAct.ActFmG clampNrn).ActDel = 0
    ∧ (clampAct.ActFmG clampNrn).Inet = 0
    ∧ (clampAct.ActFmG clampNrn).Vm
        = clampAct.XX1.Thr + clampAct.Clamp.Range.ClipVal clampNrn.Ext / clampAct.XX1.Gain
    ∧ (clampAct.ActFmG clampNrn).Ge = clampNrn.Ge
    ∧ (clampAct.ActFmG clampNrn).Gi = clampNrn.Gi
    ∧ (clampAct.ActFmG clampNrn).Noise = clampNrn.Noise
    ∧ (clampAct.ActFmG clampNrn).ActM = clampNrn.ActM
    ∧ (clampAct.ActFmG clampNrn).ActP = clampNrn.ActP :=
  actFmG_hard_clamp clampAct clampNrn rfl rfl

/-! ### C7: continuity of NoisyXX1 at its branch points -/

/-- `Update` establishes the two derived-constant identities the branch
agreement of `NoisyXX1` rests on (`XX1GainCor` reads only fields `Update`
does not change, so it is unaffected by the update). -/
theorem xx1Update_derived (q : XX1Params ℝ) :
    q.Update.SigValAt0 = 0.5 * q.Update.SigMultEff
    ∧ q.Update.InterpVal
      = q.Update.XX1GainCor q.Update.InterpRange - q.Update.SigValAt0 :=
  ⟨rfl, rfl⟩

/-- C7: with the derived constants as `Update` computes them
(`SigValAt0 = 0.5·SigMultEff`, `InterpVal = XX1GainCor(InterpRange) −
SigValAt0`) and a positive interpolation range, `NoisyXX1` is continuous at
both branch points: its limit as `x → 0⁻` (where it is the sigmoidal
branch) equals the interpolation branch's value `SigValAt0` at 0, and the
interpolation branch's value at `InterpRange` equals the gain-corrected
branch's value there, which is also the value `NoisyXX1` takes at
`InterpRange`. -/
theorem noisyXX1_continuous_at_breaks (xp : XX1Params ℝ)
    (hsv : xp.SigValAt0 = 0.5 * xp.SigMultEff)
    (hiv : xp.InterpVal = xp.XX1GainCor xp.InterpRange - xp.SigValAt0)
    (hIR : 0 < xp.InterpRange) :
    Filter.Tendsto xp.NoisyXX1 (nhdsWithin 0 (Set.Iio 0)) (nhds xp.SigValAt0)
    ∧ xp.NoisyXX1 0 = xp.SigValAt0
    ∧ xp.SigValAt0
        + (1 - (xp.InterpRange - xp.InterpRange) / xp.InterpRange) * xp.InterpVal
      = xp.XX1GainCor xp.InterpRange
    ∧ xp.NoisyXX1 xp.InterpRange = xp.XX1GainCor xp.InterpRange := by
  refine ⟨?_, ?_, ?_, ?_⟩
  · have hcont : Continuous fun x : ℝ =>
        xp.SigMultEff / (1 + Real.exp (-(x * xp.SigGainNVar))) := by
      apply continuous_const.div
      · continuity
      · intro x
        positivity
    have h0 : xp.SigMultEff / (1 + Real.exp (-((0 : ℝ) * xp.SigGainNVar)))
        = xp.SigValAt0 := by
      rw [hsv]
      norm_num [Real.exp_zero]
      ring
    have htg : Filter.Tendsto
        (fun x : ℝ => xp.SigMultEff / (1 + Real.exp (-(x * xp.SigGainNVar))))
        (nhdsWithin 0 (Set.Iio 0)) (nhds xp.SigValAt0) := by
      rw [← h0]
      exact (hcont.tendsto 0).mono_left nhdsWithin_le_nhds
    refine htg.congr' ?_
    filter_upwards [self_mem_nhdsWithin] with x hx
    rw [XX1Params.NoisyXX1, if_pos (Set.mem_Iio.mp hx)]
  · rw [XX1Params.NoisyXX1, if_neg (lt_irrefl 0), if_pos hIR]
    rw [sub_zero, div_self (ne_of_gt hIR)]
    ring
  · rw [sub_self, zero_div, hiv]
    ring
  · rw [XX1Params.NoisyXX1, if_neg (not_lt.mpr hIR.le), if_neg (lt_irrefl _)]

/-- The default `XX1Params` (part_001 lines 239-251) before `Update`. -/
noncomputable def xx1Base : XX1Params ℝ :=
  { Thr := 1/2, Gain := 100, NVar := 1/200, VmActThr := 1/100,
    SigMult := 33/100, SigMultPow := 4/5, SigGain := 3, InterpRange := 1/100,
    GainCorRange := 10, GainCor := 1/10, SigGainNVar := 0, SigMultEff := 0,
    SigValAt0 := 0, InterpVal := 0 }

/-- C7, witness for `noisyXX1_continuous_at_breaks` at the default
parameters with derived constants recomputed by `Update`. -/
theorem noisyXX1_continuous_at_breaks_witness :
    Filter.Tendsto xx1Base.Update.NoisyXX1 (nhdsWithin 0 (Set.Iio 0))
      (nhds xx1Base.Update.SigValAt0)
    ∧ xx1Base.Update.NoisyXX1 0 = xx1Base.Update.SigValAt0
    ∧ xx1Base.Update.SigValAt0
        + (1 - (xx1Base.Update.InterpRange - xx1Base.Update.InterpRange)
            / xx1Base.Update.InterpRange) * xx1Base.Update.InterpVal
      = xx1Base.Update.XX1GainCor xx1Base.Update.InterpRange
    ∧ xx1Base.Update.NoisyXX1 xx1Base.Update.InterpRange
      = xx1Base.Update.XX1GainCor xx1Base.Update.InterpRange :=
  noisyXX1_continuous_at_breaks xx1Base.Update rfl rfl
    (by norm_num [XX1Params.Update, xx1Base])

/-! ### C1: the phase-comparison statistic on identical phases -/

/-- A sum of nonnegative list entries that is zero has every entry zero. -/
theorem list_sum_zero_of_nonneg {l : List ℝ} (h : ∀ x ∈ l, 0 ≤ x)
    (hs : l.sum = 0) : ∀ x ∈ l, x = 0 := by
  induction l with
  | nil => simp
  | cons a t ih =>
      have ha : 0 ≤ a := h a (List.mem_cons_self a t)
      have ht : ∀ x ∈ t, 0 ≤ x := fun x hx => h x (List.mem_cons_of_mem a hx)
      have hts : 0 ≤ t.sum := List.sum_nonneg ht
      have hsum : a + t.sum = 0 := by simpa using hs
      intro x hx
      rcases List.mem_cons.mp hx with hx | hx
      · rw [hx]; linarith
      · exact ih ht (by linarith) x hx

/-- `ssmSum` is a sum of squares, hence nonnegative. -/
theorem ssmSum_nonneg (ns : List (Neuron ℝ)) (avgM : ℝ) :
    0 ≤ ssmSum ns avgM := by
  apply List.sum_nonneg
  intro x hx
  simp only [ssmSum, List.mem_map] at hx
  obtain ⟨n, _, hn⟩ := hx
  rw [← hn]
  split
  · exact le_refl 0
  · exact mul_self_nonneg _

/-- When the minus-phase mean-centered norm vanishes, every centered
minus-phase activation of an active neuron vanishes. -/
theorem ssmSum_eq_zero_centered (ns : List (Neuron ℝ)) (avgM : ℝ)
    (h : ssmSum ns avgM = 0) :
    ∀ n ∈ ns, n.IsOff = false → n.ActM - avgM = 0 := by
  intro n hn hoff
  have hterm : (if n.IsOff then 0 else (n.ActM - avgM) * (n.ActM - avgM)) = 0 := by
    refine list_sum_zero_of_nonneg ?_ h _ (List.mem_map_of_mem _ hn)
    intro x hx
    simp only [List.mem_map] at hx
    obtain ⟨m, _, hm⟩ := hx
    rw [← hm]
    split
    · exact le_refl 0
    · exact mul_self_nonneg _
  rw [hoff] at hterm
  simp only [Bool.false_eq_true, if_false] at hterm
  exact mul_self_eq_zero.mp hterm

/-- Likewise for the plus phase. -/
theorem sspSum_eq_zero_centered (ns : List (Neuron ℝ)) (avgP : ℝ)
    (h : sspSum ns avgP = 0) :
    ∀ n ∈ ns, n.IsOff = false → n.ActP - avgP = 0 := by
  intro n hn hoff
  have hterm : (if n.IsOff then 0 else (n.ActP - avgP) * (n.ActP - avgP)) = 0 := by
    refine list_sum_zero_of_nonneg ?_ h _ (List.mem_map_of_mem _ hn)
    intro x hx
    simp only [List.mem_map] at hx
    obtain ⟨m, _, hm⟩ := hx
    rw [← hm]
    split
    · exact le_refl 0
    · exact mul_self_nonneg _
  rw [hoff] at hterm
  simp only [Bool.false_eq_true, if_false] at hterm
  exact mul_self_eq_zero.mp hterm

/-- A vanishing combined norm forces the statistic to its guarded value 0:
the division is skipped and the accumulated `cosv` is itself 0. -/
theorem cosDiffFmActs_zero_norm (ly : Layer ℝ)
    (h : ssmSum ly.Neurons ly.Pool0.ActM.Avg
        * sspSum ly.Neurons ly.Pool0.ActP.Avg = 0) :
    ly.CosDiffFmActs = 0 := by
  have hcosv : cosvSum ly.Neurons ly.Pool0.ActM.Avg ly.Pool0.ActP.Avg = 0 := by
    apply List.sum_eq_zero
    intro x hx
    simp only [cosvSum, List.mem_map] at hx
    obtain ⟨n, hn, hxeq⟩ := hx
    rw [← hxeq]
    rcases Bool.eq_false_or_eq_true n.IsOff with hoff | hoff
    · simp [hoff]
    · rcases mul_eq_zero.mp h with hz | hz
      · have := ssmSum_eq_zero_centered ly.Neurons _ hz n hn hoff
        simp [hoff, this]
      · have := sspSum_eq_zero_centered ly.Neurons _ hz n hn hoff
        simp [hoff, this]
  rw [Layer.CosDiffFmActs]
  simp [h, hcosv]

/-- C1, amended: when every active neuron has `ActM = ActP` and the pool's
minus- and plus-phase averages coincide, `CosDiffFmActs` yields exactly 1 —
not 0 — whenever the mean-centered norm is nonzero, and 0 when that norm is
zero; in general a vanishing combined norm (in particular, a layer whose
neurons are all lesioned) skips the division (no NaN) and yields the
guarded value 0. -/
theorem cosDiffFmActs_identical_phases (ly : Layer ℝ)
    (hid : ∀ n ∈ ly.Neurons, n.IsOff = false → n.ActM = n.ActP)
    (havg : ly.Pool0.ActM.Avg = ly.Pool0.ActP.Avg) :
    (ssmSum ly.Neurons ly.Pool0.ActM.Avg = 0 → ly.CosDiffFmActs = 0)
    ∧ (ssmSum ly.Neurons ly.Pool0.ActM.Avg ≠ 0 → ly.CosDiffFmActs = 1)
    ∧ (∀ ly2 : Layer ℝ,
        ssmSum ly2.Neurons ly2.Pool0.ActM.Avg
          * sspSum ly2.Neurons ly2.Pool0.ActP.Avg = 0 →
        ly2.CosDiffFmActs = 0)
    ∧ (∀ ly2 : Layer ℝ, (∀ n ∈ ly2.Neurons, n.IsOff = true) →
        ly2.CosDiffFmActs = 0) := by
  have hssp : sspSum ly.Neurons ly.Pool0.ActP.Avg
      = ssmSum ly.Neurons ly.Pool0.ActM.Avg := by
    rw [sspSum, ssmSum]
    congr 1
    apply List.map_congr_left
    intro n hn
    rcases Bool.eq_false_or_eq_true n.IsOff with hoff | hoff
    · simp [hoff]
    · rw [hid n hn hoff, havg]
  have hcosv : cosvSum ly.Neurons ly.Pool0.ActM.Avg ly.Pool0.ActP.Avg
      = ssmSum ly.Neurons ly.Pool0.ActM.Avg := by
    rw [cosvSum, ssmSum]
    congr 1
    apply List.map_congr_left
    intro n hn
    rcases Bool.eq_false_or_eq_true n.IsOff with hoff | hoff
    · simp [hoff]
    · rw [hid n hn hoff, havg]
  refine ⟨?_, ?_, ?_, ?_⟩
  · intro hz
    exact cosDiffFmActs_zero_norm ly (by rw [hssp, hz, mul_zero])
  · intro hz
    have hpos : 0 < ssmSum ly.Neurons ly.Pool0.ActM.Avg :=
      lt_of_le_of_ne (ssmSum_nonneg _ _) (Ne.symm hz)
    have hdist : Real.sqrt (ssmSum ly.Neurons ly.Pool0.ActM.Avg
        * sspSum ly.Neurons ly.Pool0.ActP.Avg)
        = ssmSum ly.Neurons ly.Pool0.ActM.Avg := by
      rw [hssp, Real.sqrt_mul_self hpos.le]
    rw [Layer.CosDiffFmActs]
    simp only [hdist, hcosv]
    rw [if_pos hz, div_self hz]
  · intro ly2 h2
    exact cosDiffFmActs_zero_norm ly2 h2
  · intro ly2 hall
    apply cosDiffFmActs_zero_norm ly2
    have hm : ssmSum ly2.Neurons ly2.Pool0.ActM.Avg = 0 := by
      apply List.sum_eq_zero
      intro x hx
      simp only [ssmSum, List.mem_map] at hx
      obtain ⟨n, hn, hxeq⟩ := hx
      rw [← hxeq, hall n hn]
      simp
    rw [hm, zero_mul]

/-- The two-neuron layer with identical minus and plus phases `(0, 1)` and
matching pool averages 1/2, on which the statistic is 1, not 0. -/
noncomputable def cosLayer : Layer ℝ :=
  { layerOver ([Neuron.zeroed,
      { Neuron.zeroed with ActM := 1, ActP := 1 }] : List (Neuron ℝ)) with
    Pool0 := { poolOver 0 2 with
      ActM := { AvgMax.init with Avg := 1/2 }
      ActP := { AvgMax.init with Avg := 1/2 } } }

/-- C1, witness for `cosDiffFmActs_identical_phases` at `cosLayer`, whose
phases are identical (per-neuron and in the pool averages). -/
theorem cosDiffFmActs_identical_phases_witness :
    (ssmSum cosLayer.Neurons cosLayer.Pool0.ActM.Avg = 0 →
      cosLayer.CosDiffFmActs = 0)
    ∧ (ssmSum cosLayer.Neurons cosLayer.Pool0.ActM.Avg ≠ 0 →
      cosLayer.CosDiffFmActs = 1)
    ∧ (∀ ly2 : Layer ℝ,
        ssmSum ly2.Neurons ly2.Pool0.ActM.Avg
          * sspSum ly2.Neurons ly2.Pool0.ActP.Avg = 0 →
        ly2.CosDiffFmActs = 0)
    ∧ (∀ ly2 : Layer ℝ, (∀ n ∈ ly2.Neurons, n.IsOff = true) →
        ly2.CosDiffFmActs = 0) :=
  cosDiffFmActs_identical_phases cosLayer
    (by intro n hn hoff; fin_cases hn <;> rfl) rfl

/-- C1, counterexample: on `cosLayer` — identical per-neuron `ActM = ActP`
(0 and 1) and equal pool averages (1/2 each) — `CosDiffFmActs` evaluates to
1, so the claim that it is exactly 0 for identical phases fails. -/
theorem cosDiffFmActs_identical_is_one :
    cosLayer.CosDiffFmActs = 1 ∧ cosLayer.CosDiffFmActs ≠ 0 := by
  have hm : ssmSum cosLayer.Neurons cosLayer.Pool0.ActM.Avg = 1/2 := by
    norm_num [ssmSum, cosLayer, layerOver, poolOver, Neuron.zeroed, Neuron.IsOff]
  have hp : sspSum cosLayer.Neurons cosLayer.Pool0.ActP.Avg = 1/2 := by
    norm_num [sspSum, cosLayer, layerOver, poolOver, Neuron.zeroed, Neuron.IsOff]
  have hv : cosvSum cosLayer.Neurons cosLayer.Pool0.ActM.Avg
      cosLayer.Pool0.ActP.Avg = 1/2 := by
    norm_num [cosvSum, cosLayer, layerOver, poolOver, Neuron.zeroed, Neuron.IsOff]
  have hdist : Real.sqrt (ssmSum cosLayer.Neurons cosLayer.Pool0.ActM.Avg
      * sspSum cosLayer.Neurons cosLayer.Pool0.ActP.Avg) = 1/2 := by
    rw [hm, hp, show (1/2 : ℝ) * (1/2) = (1/2) * (1/2) from rfl,
      Real.sqrt_mul_self (by norm_num : (0:ℝ) ≤ 1/2)]
  have hone : cosLayer.CosDiffFmActs = 1 := by
    rw [Layer.CosDiffFmActs]
    simp only [hdist, hv]
    rw [if_pos (by norm_num : (1/2 : ℝ) ≠ 0)]
    norm_num
  exact ⟨hone, by rw [hone]; norm_num⟩

/-! ### C2: two-level inhibitory gain composition -/

/-- Per-index reading of the inner neuron loop `applyPoolGi`. -/
theorem applyPoolGi_getElem? (si : SelfInhibParams α) (g : α) (st ed : ℕ)
    (ns : List (Neuron α)) (i : ℕ) :
    (applyPoolGi si g st ed ns)[i]? = Option.map (fun n =>
      if st ≤ i ∧ i < ed ∧ n.IsOff = false then
        { n with GiSelf := si.Inhib n.GiSelf n.Act, Gi := g + si.Inhib n.GiSelf n.Act + n.GiSyn }
      else n) ns[i]? := by
  simp [applyPoolGi]

/-- A neuron whose index is in no pool of the list is untouched by the
sub-pool fold of `InhibFmGeAct`. -/
theorem foldPools_getElem?_notin (si : SelfInhibParams α) (ps : List (Pool α))
    (ns : List (Neuron α)) (i : ℕ)
    (h : ∀ pl ∈ ps, ¬(pl.StIdx ≤ i ∧ i < pl.EdIdx)) :
    (ps.foldl (fun ns pl => applyPoolGi si pl.Inhib.Gi pl.StIdx pl.EdIdx ns)
      ns)[i]? = ns[i]? := by
  induction ps generalizing ns with
  | nil => rfl
  | cons p t ih =>
      rw [List.foldl_cons, ih _ fun pl hpl => h pl (List.mem_cons_of_mem _ hpl)]
      rw [applyPoolGi_getElem?]
      have hp : ¬(p.StIdx ≤ i ∧ i < p.EdIdx) := h p (List.mem_cons_self p t)
      have hcond : ∀ n : Neuron α,
          ¬(p.StIdx ≤ i ∧ i < p.EdIdx ∧ n.IsOff = false) :=
        fun n hc => hp ⟨hc.1, hc.2.1⟩
      cases ns[i]? with
      | none => rfl
      | some n => simp [if_neg (hcond n)]

/-- The neuron whose index lies in exactly the `k`-th pool of the list
comes out of the sub-pool fold with self-inhibition integrated and
`Gi = pool.Gi + GiSelf + GiSyn` taken from that pool. -/
theorem foldPools_getElem?_unique (si : SelfInhibParams α) (ps : List (Pool α))
    (ns : List (Neuron α)) (i k : ℕ) (n : Neuron α) (hk : k < ps.length)
    (hin : ps[k].StIdx ≤ i ∧ i < ps[k].EdIdx)
    (hdisj : ∀ j (hj : j < ps.length), j ≠ k →
      ¬(ps[j].StIdx ≤ i ∧ i < ps[j].EdIdx))
    (hn : ns[i]? = some n) (hoff : n.IsOff = false) :
    (ps.foldl (fun ns pl => applyPoolGi si pl.Inhib.Gi pl.StIdx pl.EdIdx ns)
      ns)[i]?
      = some { n with GiSelf := si.Inhib n.GiSelf n.Act, Gi := ps[k].Inhib.Gi + si.Inhib n.GiSelf n.Act + n.GiSyn } := by
  induction ps generalizing ns k with
  | nil => exact absurd hk (Nat.not_lt_zero k)
  | cons p t ih =>
      cases k with
      | zero =>
          rw [List.foldl_cons]
          have htail : ∀ pl ∈ t, ¬(pl.StIdx ≤ i ∧ i < pl.EdIdx) := by
            intro pl hpl
            obtain ⟨j, hj, hjp⟩ := List.getElem_of_mem hpl
            have := hdisj (j + 1) (by simpa using Nat.succ_lt_succ hj)
              (Nat.succ_ne_zero j)
            simpa [hjp] using this
          rw [foldPools_getElem?_notin si t _ i htail, applyPoolGi_getElem?, hn]
          have hcond : p.StIdx ≤ i ∧ i < p.EdIdx ∧ n.IsOff = false :=
            ⟨hin.1, hin.2, hoff⟩
          simp [if_pos hcond]
      | succ k' =>
          rw [List.foldl_cons]
          have hp : ¬(p.StIdx ≤ i ∧ i < p.EdIdx) := by
            have := hdisj 0 (Nat.succ_pos _) (Nat.succ_ne_zero k').symm
            simpa using this
          have hn' : (applyPoolGi si p.Inhib.Gi p.StIdx p.EdIdx ns)[i]?
              = some n := by
            rw [applyPoolGi_getElem?, hn]
            have hcond : ¬(p.StIdx ≤ i ∧ i < p.EdIdx ∧ n.IsOff = false) :=
              fun hc => hp ⟨hc.1, hc.2.1⟩
            simp [if_neg hcond]
          exact ih _ k' (Nat.lt_of_succ_lt_succ hk) hin
            (fun j hj hjk => hdisj (j + 1) (Nat.succ_lt_succ hj)
              (fun he => hjk (Nat.succ_injective he)))
            hn'

/-- The layer-scope FFFB gain `lpl.Inhib.Gi` computed at the top of
`InhibFmGeAct` (layer.go lines 830-831). -/
def layerGi (ly : Layer α) : α :=
  (ly.Inhib.Layer.Inhib ly.Pool0.Ge.Avg ly.Pool0.Ge.Max ly.Pool0.Act.Avg
    ly.Pool0.Inhib).Gi

/-- The sub-pool FFFB gain computed for pool `pl` before the max-floor
(layer.go line 836). -/
def subPoolGi (ly : Layer α) (pl : Pool α) : α :=
  (ly.Inhib.Pool.Inhib pl.Ge.Avg pl.Ge.Max pl.Act.Avg pl.Inhib).Gi

/-- The sub-pool record after `InhibFmGeAct`'s max-floor step
(layer.go lines 835-837). -/
def subPoolFloor (ly : Layer α) (pl : Pool α) : Pool α :=
  { pl with Inhib :=
      { ly.Inhib.Pool.Inhib pl.Ge.Avg pl.Ge.Max pl.Act.Avg pl.Inhib with
        Gi := max (subPoolGi ly pl) (layerGi ly) } }

/-- The neuron slice of `InhibFmGeAct` on a layer without sub-pools. -/
theorem inhibFmGeAct_neurons_nil (ly : Layer α) (h : ly.SubPools = []) :
    ly.InhibFmGeAct.Neurons
      = applyPoolGi ly.Inhib.Self (layerGi ly) ly.Pool0.StIdx ly.Pool0.EdIdx
          ly.Neurons := by
  rcases ly with ⟨ns, p0, sps, typ, act, inh, lrn⟩
  simp only at h
  subst h
  rfl

/-- The neuron slice of `InhibFmGeAct` on a layer with sub-pools: the
fold of the per-pool neuron loop over the max-floored sub-pools. -/
theorem inhibFmGeAct_neurons_cons (ly : Layer α) (sp : Pool α)
    (sps : List (Pool α)) (h : ly.SubPools = sp :: sps) :
    ly.InhibFmGeAct.Neurons
      = ((sp :: sps).map (subPoolFloor ly)).foldl
          (fun ns pl => applyPoolGi ly.Inhib.Self pl.Inhib.Gi pl.StIdx
            pl.EdIdx ns) ly.Neurons := by
  rcases ly with ⟨ns, p0, sps0, typ, act, inh, lrn⟩
  simp only at h
  subst h
  rfl

/-- C2, amended: after `InhibFmGeAct`, an active neuron of a layer *with*
sub-pools, lying in exactly its own sub-pool's range, carries
`Gi = max(own sub-pool gain, layer-scope gain) + GiSelf + GiSyn` (with
`GiSelf` freshly integrated by `SelfInhibParams.Inhib`); an active neuron
of a layer *without* sub-pools carries `Gi = layer-scope gain + GiSelf +
GiSyn` — the incoming synaptic inhibitory conductance `GiSyn` is added in
both branches, not only in the sub-pool branch. -/
theorem inhibFmGeAct_gi_composition (ly : Layer α) (i k : ℕ) (n : Neuron α) :
    (ly.SubPools = [] →
      ly.Neurons[i]? = some n → n.IsOff = false →
      ly.Pool0.StIdx ≤ i → i < ly.Pool0.EdIdx →
      ly.InhibFmGeAct.Neurons[i]?
        = some { n with GiSelf := ly.Inhib.Self.Inhib n.GiSelf n.Act, Gi := layerGi ly + ly.Inhib.Self.Inhib n.GiSelf n.Act + n.GiSyn })
    ∧ (∀ hk : k < ly.SubPools.length,
        ly.Neurons[i]? = some n → n.IsOff = false →
        ly.SubPools[k].StIdx ≤ i → i < ly.SubPools[k].EdIdx →
        (∀ j (hj : j < ly.SubPools.length), j ≠ k →
          ¬(ly.SubPools[j].StIdx ≤ i ∧ i < ly.SubPools[j].EdIdx)) →
        ly.InhibFmGeAct.Neurons[i]?
          = some { n with GiSelf := ly.Inhib.Self.Inhib n.GiSelf n.Act, Gi := max (subPoolGi ly (ly.SubPools[k])) (layerGi ly) + ly.Inhib.Self.Inhib n.GiSelf n.Act + n.GiSyn }) := by
  constructor
  · intro hsp hn hoff hst hed
    rw [inhibFmGeAct_neurons_nil ly hsp, applyPoolGi_getElem?, hn]
    have hcond : ly.Pool0.StIdx ≤ i ∧ i < ly.Pool0.EdIdx ∧ n.IsOff = false :=
      ⟨hst, hed, hoff⟩
    simp [if_pos hcond]
  · intro hk hn hoff hst hed hdisj
    obtain ⟨sp, sps, hsub⟩ : ∃ sp sps, ly.SubPools = sp :: sps := by
      cases hc : ly.SubPools with
      | nil => rw [hc] at hk; exact absurd hk (Nat.not_lt_zero k)
      | cons a b => exact ⟨a, b, rfl⟩
    simp only [hsub] at hk hst hed hdisj ⊢
    rw [inhibFmGeAct_neurons_cons ly sp sps hsub]
    have hk' : k < ((sp :: sps).map (subPoolFloor ly)).length := by
      simpa using hk
    have hin' : ((sp :: sps).map (subPoolFloor ly))[k].StIdx ≤ i
        ∧ i < ((sp :: sps).map (subPoolFloor ly))[k].EdIdx := by
      simp only [List.getElem_map, subPoolFloor]
      exact ⟨hst, hed⟩
    have hdisj' : ∀ j (hj : j < ((sp :: sps).map (subPoolFloor ly)).length),
        j ≠ k →
        ¬(((sp :: sps).map (subPoolFloor ly))[j].StIdx ≤ i
          ∧ i < ((sp :: sps).map (subPoolFloor ly))[j].EdIdx) := by
      intro j hj hjk
      simp only [List.getElem_map, subPoolFloor]
      exact hdisj j (by simpa using hj) hjk
    rw [foldPools_getElem?_unique ly.Inhib.Self _ ly.Neurons i k n hk'
      hin' hdisj' hn hoff]
    simp only [List.getElem_map, subPoolFloor]

/-- The single-pool, all-inhibition-disabled layer with one active neuron
carrying synaptic inhibitory conductance `GiSyn = 1`. -/
def giLayer : Layer ℚ :=
  layerOver [{ Neuron.zeroed with GiSyn := 1 }]

/-- C2, counterexample: on `giLayer` (no sub-pools, FFFB and
self-inhibition disabled, `GiSyn = 1`) the neuron's inhibitory gain after
`InhibFmGeAct` is 1, yet the layer-scope gain and the self-inhibition are
both 0 — so the claim that "only the layer-scope gain and self-inhibition
apply" in the no-sub-pool branch is false: `GiSyn` is added there too
(layer.go line 854). -/
theorem inhibFmGeAct_single_pool_giSyn :
    ((giLayer.InhibFmGeAct).Neurons.getD 0 Neuron.zeroed).Gi = 1
    ∧ (giLayer.InhibFmGeAct).Pool0.Inhib.Gi = 0
    ∧ ((giLayer.InhibFmGeAct).Neurons.getD 0 Neuron.zeroed).GiSelf = 0
    ∧ ((giLayer.InhibFmGeAct).Neurons.getD 0 Neuron.zeroed).Gi
      ≠ (giLayer.InhibFmGeAct).Pool0.Inhib.Gi
        + ((giLayer.InhibFmGeAct).Neurons.getD 0 Neuron.zeroed).GiSelf := by
  have h : giLayer.InhibFmGeAct
      = { giLayer with
          Pool0 := { giLayer.Pool0 with Inhib := FFFBInhib.init }
          Neurons := [{ Neuron.zeroed with GiSyn := 1, Gi := 0 + 0 + 1 }] } := by
    rw [Layer.InhibFmGeAct]
    norm_num [giLayer, layerOver, inhibZero, fffbZero, poolOver,
      FFFBParams.Inhib, FFFBInhib.init, applyPoolGi, SelfInhibParams.Inhib,
      Neuron.IsOff, Neuron.zeroed]
  rw [h]
  norm_num [FFFBInhib.init, Neuron.zeroed]

/-- A sub-pool with nonzero pooled conductance, range `[0, 1)`. -/
def poolA : Pool ℚ :=
  { poolOver 0 1 with Ge := { AvgMax.init with Avg := 3/10, Max := 3/10 } }

/-- A quiet sub-pool, range `[1, 2)`. -/
def poolB : Pool ℚ := poolOver 1 2

/-- A two-neuron, two-sub-pool layer with only pool-level FFFB enabled
(`Gi = FF = 1`, `FF0 = 0`) and `GiSyn = 2` on the second neuron. -/
def twoPoolLayer : Layer ℚ :=
  { layerOver ([Neuron.zeroed, { Neuron.zeroed with GiSyn := 2 }]
      : List (Neuron ℚ)) with
    SubPools := [poolA, poolB]
    Inhib := { inhibZero with
      Pool := { fffbZero with On := true, Gi := 1, FF := 1, FF0 := 0 } } }

/-- A concrete run of the sub-pool branch: neuron 0 receives its own
pool's FFFB gain `1·(3/10 − 0) = 3/10` (the layer scope, disabled, floors
it at 0), and neuron 1 of the quiet pool keeps only its synaptic
inhibition `GiSyn = 2`. -/
theorem twoPool_subpool_demo :
    ((twoPoolLayer.InhibFmGeAct).Neurons.getD 0 Neuron.zeroed).Gi = 3/10
    ∧ ((twoPoolLayer.InhibFmGeAct).Neurons.getD 1 Neuron.zeroed).Gi = 2 := by
  norm_num [Layer.InhibFmGeAct, twoPoolLayer, poolA, poolB, layerOver,
    poolOver, inhibZero, fffbZero, FFFBParams.Inhib, FFFBParams.FFInhib,
    FFFBParams.FBInhib, FFFBParams.FBUpdt, FFFBInhib.init, applyPoolGi,
    SelfInhibParams.Inhib, Neuron.IsOff, Neuron.zeroed, AvgMax.init,
    maxFloat32]

/-! ### C3: which per-neuron passes skip Off neurons -/

/-- An `Off` neuron passes through the sub-pool fold of `InhibFmGeAct`
unchanged. -/
theorem foldPools_getElem?_off (si : SelfInhibParams α) (ps : List (Pool α))
    (ns : List (Neuron α)) (i : ℕ) (n : Neuron α)
    (hn : ns[i]? = some n) (hoff : n.IsOff = true) :
    (ps.foldl (fun ns pl => applyPoolGi si pl.Inhib.Gi pl.StIdx pl.EdIdx ns)
      ns)[i]? = some n := by
  induction ps generalizing ns with
  | nil => exact hn
  | cons p t ih =>
      rw [List.foldl_cons]
      apply ih
      rw [applyPoolGi_getElem?, hn]
      have hcond : ¬(p.StIdx ≤ i ∧ i < p.EdIdx ∧ n.IsOff = false) := by
        intro hc
        rw [hoff] at hc
        exact absurd hc.2.2 (by simp)
      simp [if_neg hcond]

/-- Folding `UpdateVal` accumulates the sum of every visited value and
counts every visited index — with no exception for `Off` neurons. -/
theorem foldl_updateVal_sum (l : List (ℕ × Neuron α)) (am : AvgMax α)
    (f : Neuron α → α) :
    ((l.foldl (fun a p => a.updateVal (f p.2) (p.1 : ℤ)) am).Sum
        = am.Sum + (l.map fun p => f p.2).sum)
    ∧ (l.foldl (fun a p => a.updateVal (f p.2) (p.1 : ℤ)) am).N
        = am.N + l.length := by
  induction l generalizing am with
  | nil => simp
  | cons p t ih =>
      simp only [List.foldl_cons, List.map_cons, List.sum_cons, List.length_cons]
      refine ⟨?_, ?_⟩
      · rw [(ih _).1]
        simp only [AvgMax.updateVal]
        ring
      · rw [(ih _).2]
        simp only [AvgMax.updateVal]
        omega

/-- The `Off`-skipping fold of `AvgMaxAct` accumulates only the active
neurons' values. -/
theorem foldl_updateVal_sum_active (l : List (ℕ × Neuron α)) (am : AvgMax α)
    (f : Neuron α → α) :
    (l.foldl (fun a p => if p.2.IsOff then a else a.updateVal (f p.2) (p.1 : ℤ))
      am).Sum
      = am.Sum + ((l.filter fun p => p.2.IsOff = false).map fun p => f p.2).sum := by
  induction l generalizing am with
  | nil => simp
  | cons p t ih =>
      by_cases hoff : p.2.IsOff
      · simp only [List.foldl_cons, if_pos hoff]
        rw [ih]
        simp [List.filter_cons, hoff]
      · simp only [List.foldl_cons, if_neg hoff]
        rw [ih]
        simp only [List.filter_cons]
        rw [if_pos (by simpa using Bool.not_eq_true _ ▸ hoff)]
        simp only [List.map_cons, List.sum_cons, AvgMax.updateVal]
        ring

/-- `CalcAvg` recomputes only `Avg`; the accumulators survive it. -/
theorem calcAvg_preserves (am : AvgMax α) :
    am.calcAvg.Sum = am.Sum ∧ am.calcAvg.N = am.N := by
  rw [AvgMax.calcAvg]
  split <;> exact ⟨rfl, rfl⟩

/-- C3, amended: in the cycle pipeline, the activation pass (`ActFmG`) and
the sub-pool inhibition loops (`InhibFmGeAct`) skip a neuron whose `Off`
flag is set — its state is neither read nor written — and every pass keeps
the neuron allocated; the pooled *activation* statistics (`AvgMaxAct`)
accumulate only active neurons; but `GenNoise` writes a fresh noise sample
to **every** neuron, `Off` ones included, and the pooled conductance
statistics (`AvgMaxGe`) accumulate the `Ge` of **every** neuron in the pool
range, `Off` ones included (those two source loops have no `IsOff`
check). -/
theorem off_neuron_pass_effects (ly : Layer ℝ) (gen : ℕ → ℝ) (i : ℕ)
    (n : Neuron ℝ) :
    ly.ActFmG.Neurons.length = ly.Neurons.length
    ∧ (ly.Neurons[i]? = some n → n.IsOff = true →
        ly.ActFmG.Neurons[i]? = some n)
    ∧ (ly.Neurons[i]? = some n → n.IsOff = true →
        ly.InhibFmGeAct.Neurons[i]? = some n)
    ∧ (ly.GenNoise gen).Neurons.length = ly.Neurons.length
    ∧ (ly.Neurons[i]? = some n →
        (ly.GenNoise gen).Neurons[i]? = some { n with Noise := gen i })
    ∧ (ly.AvgMaxGe).Pool0.Ge.Sum
        = ((idxRange ly.Neurons ly.Pool0.StIdx ly.Pool0.EdIdx).map
            fun p => p.2.Ge).sum
    ∧ (ly.AvgMaxGe).Pool0.Ge.N
        = (idxRange ly.Neurons ly.Pool0.StIdx ly.Pool0.EdIdx).length
    ∧ (ly.AvgMaxAct).Pool0.Act.Sum
        = (((idxRange ly.Neurons ly.Pool0.StIdx ly.Pool0.EdIdx).filter
            fun p => p.2.IsOff = false).map fun p => p.2.Act).sum := by
  refine ⟨by simp [Layer.ActFmG], ?_, ?_, by simp [Layer.GenNoise], ?_, ?_, ?_, ?_⟩
  · intro hn hoff
    simp [Layer.ActFmG, hn, hoff]
  · intro hn hoff
    rcases hc : ly.SubPools with _ | ⟨sp, sps⟩
    · rw [inhibFmGeAct_neurons_nil ly hc, applyPoolGi_getElem?, hn]
      have hcond : ¬(ly.Pool0.StIdx ≤ i ∧ i < ly.Pool0.EdIdx
          ∧ n.IsOff = false) := by
        intro hcc
        rw [hoff] at hcc
        exact absurd hcc.2.2 (by simp)
      simp [if_neg hcond]
    · rw [inhibFmGeAct_neurons_cons ly sp sps hc]
      exact foldPools_getElem?_off ly.Inhib.Self _ ly.Neurons i n hn hoff
  · intro hn
    simp [Layer.GenNoise, hn]
  · simp only [Layer.AvgMaxGe, Pool.geStats]
    rw [(calcAvg_preserves _).1, (foldl_updateVal_sum _ _ _).1]
    simp [AvgMax.init]
  · simp only [Layer.AvgMaxGe, Pool.geStats]
    rw [(calcAvg_preserves _).2, (foldl_updateVal_sum _ _ _).2]
    simp [AvgMax.init]
  · simp only [Layer.AvgMaxAct, Pool.actStats]
    rw [(calcAvg_preserves _).1, foldl_updateVal_sum_active]
    simp [AvgMax.init]

/-- Two-neuron layer whose second neuron is lesioned (`Off`) with `Ge = 5`. -/
def offLayerA : Layer ℚ :=
  layerOver [{ Neuron.zeroed with Ge := 1 },
             { Neuron.zeroed with Ge := 5, Off := true }]

/-- As `offLayerA` but the lesioned neuron's `Ge` is 1: the two layers
differ only in the state of an `Off` neuron. -/
def offLayerB : Layer ℚ :=
  layerOver [{ Neuron.zeroed with Ge := 1 },
             { Neuron.zeroed with Ge := 1, Off := true }]

/-- C3, counterexample: `AvgMaxGe` *reads* the `Off` neuron — the pooled
conductance maximum is 5 on `offLayerA` but 1 on `offLayerB`, although the
two layers differ only in the lesioned neuron's state — and `GenNoise`
*writes* the `Off` neuron, changing its noise sample from 0 to 7.  So the
claim that every per-neuron pass skips lesioned neurons is false for these
two passes (layer.go lines 633-638 and 816-826 have no `IsOff` check). -/
theorem avgMaxGe_genNoise_read_write_off :
    (offLayerA.AvgMaxGe).Pool0.Ge.Max = 5
    ∧ (offLayerB.AvgMaxGe).Pool0.Ge.Max = 1
    ∧ (5 : ℚ) ≠ 1
    ∧ (offLayerA.Neurons.getD 1 Neuron.zeroed).Off = true
    ∧ (offLayerA.Neurons.getD 1 Neuron.zeroed).Noise = 0
    ∧ ((offLayerA.GenNoise fun _ => 7).Neurons.getD 1 Neuron.zeroed).Noise = 7 := by
  refine ⟨?_, ?_, by norm_num, by rfl, by rfl, ?_⟩
  · norm_num [Layer.AvgMaxGe, Pool.geStats, idxRange, AvgMax.init,
      AvgMax.updateVal, AvgMax.calcAvg, maxFloat32, offLayerA, layerOver,
      poolOver, Neuron.zeroed, List.enum, List.enumFrom, List.filter]
  · norm_num [Layer.AvgMaxGe, Pool.geStats, idxRange, AvgMax.init,
      AvgMax.updateVal, AvgMax.calcAvg, maxFloat32, offLayerB, layerOver,
      poolOver, Neuron.zeroed, List.enum, List.enumFrom, List.filter]
  · norm_num [Layer.GenNoise, offLayerA, layerOver, Neuron.zeroed]

end Leabra
